import Mathlib

/-!
Verification of the chatverse chat-history backend.

This file gives a shallow embedding of the persistence / caching layer of the
repository (`repository/chat_repository.py`, `services/chat_service.py`,
`routes/messages.py`, `routes/chats.py`) and proves the specification claims
about it.

Modelling conventions:
* `uuid.uuid4()` calls are modelled by a fresh-id counter `nextId` carried in
  the state; uuids are opaque unique identifiers, so a counter is faithful.
* `datetime.now(timezone.utc)` is modelled by a logical time `t : Nat` passed
  to each operation; all clock reads inside one repository call return the
  same `t`.
* A durable-storage failure (`SQLAlchemyError` raised at commit) is modelled
  by a boolean `dbFails` parameter: when it is true the commit raises, the
  transaction is rolled back (storage reverts to its pre-call value) and the
  `except` branch of the source returns `None`.
* Python dictionaries (`chat_cache`, `user_chats_cache`) are modelled as
  association lists with update-or-append semantics.
* The transient `suggestions` decoration added by `ChatService` is produced by
  `random.sample`, is never persisted and is not mentioned by any claim; it is
  not modelled.
-/

/-- A cached interaction dictionary, as built by
`ChatRepository.create_interaction` and by the row-to-dict conversions in
`load_chat_from_db` / `delete_message`. -/
structure InteractionD where
  interaction_id : Nat
  index : Nat
  message : Option String
  response : String
  timestamp : Nat
deriving DecidableEq

/-- A row of the `interactions` table (`repository/database.py`). -/
structure InteractionRow where
  id : Nat
  chat_id : Nat
  index : Nat
  message : Option String
  response : String
  timestamp : Nat
deriving DecidableEq

/-- A row of the `chats` table. -/
structure ChatRow where
  id : Nat
  user_id : Nat
  name : String
deriving DecidableEq

/-- A row of the `users` table (only the fields the claims mention). -/
structure UserRow where
  id : Nat
  username : String
deriving DecidableEq

/-- The durable SQLite storage: the three relations of the data model. -/
structure Storage where
  users : List UserRow
  chats : List ChatRow
  interactions : List InteractionRow
deriving DecidableEq

/-- A `chat_cache` entry (`chat_data` dictionary in the source). -/
structure ChatData where
  user_id : Nat
  chat_name : String
  chat_id : Nat
  interactions : List InteractionD
deriving DecidableEq

/-- The whole mutable state of the repository process: durable storage, the
two module-level caches, and the fresh-uuid counter. -/
structure RepoState where
  storage : Storage
  chat_cache : List (Nat × ChatData)
  user_chats_cache : List (Nat × List (Nat × String))
  nextId : Nat
deriving DecidableEq

/-- Lookup in a Python-dict modelled as an association list. -/
def assocFind {α : Type} (k : Nat) (m : List (Nat × α)) : Option α :=
  match m with
  | [] => none
  | (k0, v0) :: rest => if k0 == k then some v0 else assocFind k rest

/-- Update-or-append for a Python-dict modelled as an association list. -/
def assocSet {α : Type} (k : Nat) (v : α) (m : List (Nat × α)) : List (Nat × α) :=
  match m with
  | [] => [(k, v)]
  | (k0, v0) :: rest => if k0 == k then (k, v) :: rest else (k0, v0) :: assocSet k v rest

/-- Python `k in dict`. -/
def assocMem {α : Type} (k : Nat) (m : List (Nat × α)) : Bool :=
  (assocFind k m).isSome

/-- The rows of the `interactions` table belonging to one chat, in storage
order (models `query(Interaction).filter(Interaction.chat_id == chat_id)`). -/
def chatRows (s : Storage) (cid : Nat) : List InteractionRow :=
  s.interactions.filter (fun r => r.chat_id == cid)

/-- Insert one row into a list sorted by `index` (helper for `sortByIndex`). -/
def insertByIndex (r : InteractionRow) : List InteractionRow → List InteractionRow
  | [] => [r]
  | x :: xs => if r.index < x.index then r :: x :: xs else x :: insertByIndex r xs

/-- Stable sort by `index`, modelling the SQL `ORDER BY interactions.index`. -/
def sortByIndex : List InteractionRow → List InteractionRow
  | [] => []
  | x :: xs => insertByIndex x (sortByIndex xs)

/-- Conversion of a database row to the dictionary shape used in the cache. -/
def rowToDict (r : InteractionRow) : InteractionD :=
  ⟨r.id, r.index, r.message, r.response, r.timestamp⟩

/-- Models `query(Interaction).filter(Interaction.id == iid).first()`. -/
def findRow (s : Storage) (iid : Nat) : Option InteractionRow :=
  s.interactions.find? (fun r => r.id == iid)

/-- Models `query(Chat).filter(Chat.id == cid).first()`. -/
def findChat (s : Storage) (cid : Nat) : Option ChatRow :=
  s.chats.find? (fun c => c.id == cid)

/-- `ChatRepository.create_interaction`. -/
def create_interaction (message : Option String) (response : String)
    (interaction_id : Nat) (index : Nat) (t : Nat) : InteractionD :=
  ⟨interaction_id, index, message, response, t⟩

/-- `ChatRepository.load_chat_from_db`: read the chat interactions ordered
by index, return `None` if there are none or the chat row is absent, and
otherwise build the chat dictionary and (re)populate the cache entry. -/
def load_chat_from_db (st : RepoState) (cid : Nat) : Option ChatData × RepoState :=
  let rows := sortByIndex (chatRows st.storage cid)
  if rows.isEmpty then (none, st)
  else
    match findChat st.storage cid with
    | none => (none, st)
    | some chat =>
      let cd : ChatData := ⟨chat.user_id, chat.name, cid, rows.map rowToDict⟩
      (some cd, { st with chat_cache := assocSet cid cd st.chat_cache })

/-- `ChatRepository.verify_user_ownership`: read-through the cache, `False`
when the chat cannot be found at all. -/
def verify_user_ownership (st : RepoState) (cid uid : Nat) : Bool × RepoState :=
  match assocFind cid st.chat_cache with
  | some cd => (cd.user_id == uid, st)
  | none =>
    match load_chat_from_db st cid with
    | (none, st1) => (false, st1)
    | (some cd, st1) => (cd.user_id == uid, st1)

/-- `ChatRepository.create_chat`: persist the chat row and the greeting
interaction (index 0, `message = None`), then populate both caches.  On a
storage failure the transaction is rolled back, nothing is cached and the
call returns `None`. -/
def create_chat (st : RepoState) (chat_name greeting : String) (user_id : Nat)
    (t : Nat) (dbFails : Bool) : Option (Nat × InteractionD × String) × RepoState :=
  let chat_id := st.nextId
  let interaction_id := st.nextId + 1
  let st0 : RepoState := { st with nextId := st.nextId + 2 }
  let interaction := create_interaction none greeting interaction_id 0 t
  if dbFails then (none, st0)
  else
    let storage1 : Storage :=
      { st0.storage with
        chats := st0.storage.chats ++ [⟨chat_id, user_id, chat_name⟩],
        interactions :=
          st0.storage.interactions ++ [⟨interaction_id, chat_id, 0, none, greeting, t⟩] }
    let cd : ChatData := ⟨user_id, chat_name, chat_id, [interaction]⟩
    let ucc :=
      match assocFind user_id st0.user_chats_cache with
      | some l => assocSet user_id (l ++ [(chat_id, chat_name)]) st0.user_chats_cache
      | none => assocSet user_id [(chat_id, chat_name)] st0.user_chats_cache
    (some (chat_id, interaction, chat_name),
      { st0 with
        storage := storage1,
        chat_cache := assocSet chat_id cd st0.chat_cache,
        user_chats_cache := ucc })

/-- `ChatRepository.add_message`: load the chat into the cache if needed
(`None` if it does not exist), compute the new index as the length of the
cached list, persist the new interaction row and append it to the cache. -/
def add_message (st : RepoState) (cid : Nat) (message response : String)
    (t : Nat) (dbFails : Bool) : Option InteractionD × RepoState :=
  let loaded :=
    if assocMem cid st.chat_cache then (true, st)
    else
      match load_chat_from_db st cid with
      | (none, st1) => (false, st1)
      | (some _, st1) => (true, st1)
  match loaded with
  | (false, st1) => (none, st1)
  | (true, st1) =>
    match assocFind cid st1.chat_cache with
    | none => (none, st1)
    | some cd =>
      let new_index := cd.interactions.length
      let interaction_id := st1.nextId
      let st2 : RepoState := { st1 with nextId := st1.nextId + 1 }
      let interaction := create_interaction (some message) response interaction_id new_index t
      if dbFails then (none, st2)
      else
        let storage1 : Storage :=
          { st2.storage with
            interactions :=
              st2.storage.interactions ++
                [⟨interaction_id, cid, new_index, some message, response, t⟩] }
        let cd1 : ChatData := { cd with interactions := cd.interactions ++ [interaction] }
        (some interaction,
          { st2 with storage := storage1, chat_cache := assocSet cid cd1 st2.chat_cache })

/-- Update of the first row carrying the given id (models the mutation of the
ORM object returned by `.first()` in `edit_message`). -/
def updateRowById (l : List InteractionRow) (iid : Nat) (m r : String) (t : Nat) :
    List InteractionRow :=
  match l with
  | [] => []
  | x :: xs =>
    if x.id == iid then { x with message := some m, response := r, timestamp := t } :: xs
    else x :: updateRowById xs iid m r t

/-- The cache update loop of `edit_message`: find the cached interaction with
the given id, overwrite its message and response (the cached timestamp is NOT
refreshed in the source) and truncate the list immediately after it; when no
cached element matches, the list is returned unchanged. -/
def truncAt (l : List InteractionD) (iid : Nat) (m r : String) : List InteractionD :=
  match l with
  | [] => []
  | x :: xs =>
    if x.interaction_id == iid then [{ x with message := some m, response := r }]
    else x :: truncAt xs iid m r

/-- The durable effect of `edit_message` once the interaction row is found:
overwrite the matched row message, response and timestamp, then delete every
interaction of the same chat (`cid`) with index greater than `i`; the two
steps are committed together in the source. -/
def editStorage (s : Storage) (iid cid i : Nat) (m r : String) (t : Nat) : Storage :=
  let ints := (updateRowById s.interactions iid m r t).filter
    (fun x => !(x.chat_id == cid && decide (i < x.index)))
  { s with interactions := ints }

/-- `ChatRepository.edit_message`: look up the interaction by id (`None` if
absent), overwrite its message/response/timestamp, durably delete every
interaction of the same chat with a larger index, then update the cache entry
if present, else reload the chat from storage. -/
def edit_message (st : RepoState) (iid : Nat) (new_message new_response : String)
    (t : Nat) (dbFails : Bool) : Option (List InteractionD) × RepoState :=
  match findRow st.storage iid with
  | none => (none, st)
  | some row =>
    if dbFails then (none, st)
    else
      let i := row.index
      let cid := row.chat_id
      let storage1 : Storage := editStorage st.storage iid cid i new_message new_response t
      let st1 : RepoState := { st with storage := storage1 }
      match assocFind cid st1.chat_cache with
      | some cd =>
        let newInts := truncAt cd.interactions iid new_message new_response
        (some newInts,
          { st1 with
            chat_cache := assocSet cid { cd with interactions := newInts } st1.chat_cache })
      | none =>
        match load_chat_from_db st1 cid with
        | (some cd, st2) => (some cd.interactions, st2)
        | (none, st2) => (none, st2)

/-- The durable effect of `delete_message`: delete every interaction of the
chat `cid` with index at least `i`. -/
def delStorage (s : Storage) (cid i : Nat) : Storage :=
  let ints := s.interactions.filter (fun x => !(x.chat_id == cid && decide (i ≤ x.index)))
  { s with interactions := ints }

/-- `ChatRepository.delete_message`: look up the interaction by id (`None` if
absent), durably delete every interaction of the same chat with index greater
than or equal to its index, filter the cache entry if present, else read the
remaining rows back from storage (without populating the cache). -/
def delete_message (st : RepoState) (iid : Nat) (dbFails : Bool) :
    Option (List InteractionD) × RepoState :=
  match findRow st.storage iid with
  | none => (none, st)
  | some row =>
    if dbFails then (none, st)
    else
      let cid := row.chat_id
      let i := row.index
      let storage1 : Storage := delStorage st.storage cid i
      let st1 : RepoState := { st with storage := storage1 }
      match assocFind cid st1.chat_cache with
      | some cd =>
        let newInts := cd.interactions.filter (fun d => decide (d.index < i))
        (some newInts,
          { st1 with
            chat_cache := assocSet cid { cd with interactions := newInts } st1.chat_cache })
      | none =>
        (some ((sortByIndex (chatRows storage1 cid)).map rowToDict), st1)

/-- `ChatRepository.get_chat`: return the cache entry if present, else load
from storage (which caches the result). -/
def get_chat (st : RepoState) (cid : Nat) : Option ChatData × RepoState :=
  match assocFind cid st.chat_cache with
  | some cd => (some cd, st)
  | none => load_chat_from_db st cid

/-- The `predefined_responses` dictionary of `constants.py`, in insertion
order (Python dict iteration order). -/
def predefined_responses : List (String × String) :=
  [("Hello", "Hello! How can I assist you today?"),
   ("What is your name?", "I am a simple chatbot created to assist you."),
   ("How are you?", "I\u0027m doing well! Thanks for asking. How can I assist you today?"),
   ("Bye", "Goodbye! Have a great day!"),
   ("Help", "I\u0027m here to help! What kind of assistance do you need?"),
   ("Thank you", "You\u0027re welcome! Is there anything else I can help you with?"),
   ("Weather", "I\u0027m sorry, I don\u0027t have real-time weather information. You might want to check a weather website or app for that."),
   ("Tell me a joke", "Why don\u0027t scientists trust atoms? Because they make up everything!"),
   ("What time is it?", "I\u0027m sorry, I don\u0027t have access to real-time information. You can check the time on your device."),
   ("Who created you?", "I was created by Abirami as a simple chatbot to assist users."),
   ("What can you do?", "I can answer your questions, provide assistance, and even tell you jokes. Just ask away!"),
   ("Where are you from?", "I live in the cloud, available whenever you need me."),
   ("How old are you?", "I don\u0027t age like humans, but I was created quite recently!"),
   ("Do you have hobbies?", "I enjoy helping people and learning new things from our conversations!"),
   ("What is AI?", "AI stands for Artificial Intelligence, which is a branch of computer science aimed at creating smart machines that can perform tasks that usually require human intelligence."),
   ("Do you sleep?", "I don\u0027t need sleep! I\u0027m here 24/7 to assist you."),
   ("Are you a human?", "No, I\u0027m not human. I\u0027m a chatbot created to assist you."),
   ("What is your favorite color?", "I like all colors equally, but if I had to choose, I\u0027d go with blue. It feels calm and friendly."),
   ("What is the meaning of life?", "The meaning of life is a deep philosophical question. Some say it\u0027s to be happy and enjoy the moment, while others believe it\u0027s to make a difference in the world."),
   ("Do you have any pets?", "I\u0027m sorry, I don\u0027t have any physical form. But I can help you with your questions!"),
   ("What is the capital of France?", "The capital of France is Paris."),
   ("Can you play music?", "I\u0027m sorry, I don\u0027t have the ability to play music. I can help you with your questions though!"),
   ("What is the speed of light?", "The speed of light is approximately 299,792,458 meters per second in a vacuum."),
   ("Do you have any siblings?", "I\u0027m sorry, I don\u0027t have any physical form. But I can help you with your questions!"),
   ("What is the square root of 144?", "The square root of 144 is 12."),
   ("Can you tell me a secret?", "I\u0027m sorry, I don\u0027t have the ability to store or share secrets. I can help you with your questions though!")]

/-- Character-list test: the first list is a prefix of the second. -/
def startsWithCh : List Char → List Char → Bool
  | [], _ => true
  | _ :: _, [] => false
  | a :: pa, b :: pb => a == b && startsWithCh pa pb

/-- Character-list substring test (`pat` occurs inside the second list). -/
def subCh (pat : List Char) : List Char → Bool
  | [] => pat.isEmpty
  | c :: rest => startsWithCh pat (c :: rest) || subCh pat rest

/-- Python `str.lower()` (ASCII-adequate for the dictionary keys). -/
def toLowerStr (s : String) : String := ⟨s.data.map Char.toLower⟩

/-- Python `str.strip()` on the character list. -/
def stripChars (l : List Char) : List Char :=
  (((l.dropWhile Char.isWhitespace).reverse).dropWhile Char.isWhitespace).reverse

/-- Python `str.strip()`. -/
def stripStr (s : String) : String := ⟨stripChars s.data⟩

/-- Python `key.lower() in message` (substring containment). -/
def containsSub (hay pat : String) : Bool := subCh pat.data hay.data

/-- `ChatService.get_response`: lowercase and strip the message, return the
response of the first dictionary key occurring in it as a substring, or the
fallback sentence. -/
def get_response (message : String) : String :=
  let m := toLowerStr (stripStr message)
  match predefined_responses.find? (fun kv => containsSub m (toLowerStr kv.1)) with
  | some kv => kv.2
  | none => "Sorry, I don\u0027t understand that. Can you ask something else?"

/-- `ChatService.create_chat`: the greeting is `get_response("Hello")`. -/
def service_create_chat (st : RepoState) (chat_name : String) (uid t : Nat)
    (dbFails : Bool) : Option (Nat × InteractionD × String) × RepoState :=
  create_chat st chat_name (get_response "Hello") uid t dbFails

/-- `ChatService.add_message`: the response is `get_response(message)`. -/
def service_add_message (st : RepoState) (cid : Nat) (message : String) (t : Nat)
    (dbFails : Bool) : Option InteractionD × RepoState :=
  add_message st cid message (get_response message) t dbFails

/-- `ChatService.edit_message`: the response is `get_response(new_message)`. -/
def service_edit_message (st : RepoState) (iid : Nat) (message : String) (t : Nat)
    (dbFails : Bool) : Option (List InteractionD) × RepoState :=
  edit_message st iid message (get_response message) t dbFails

/-- `ChatService.delete_message` delegates to the repository. -/
def service_delete_message (st : RepoState) (iid : Nat) (dbFails : Bool) :
    Option (List InteractionD) × RepoState :=
  delete_message st iid dbFails

/-- Outcome of a route handler: a value, or an HTTP error status. -/
inductive RouteResult (α : Type) where
  | ok (value : α)
  | error (status : Nat)
deriving DecidableEq

/-- The `POST /chats/{chat_id}/messages` handler of `routes/messages.py`:
ownership check on the path chat id (403), then `add_message` (404 on `None`). -/
def route_add_message (st : RepoState) (cid : Nat) (message : String) (uid t : Nat)
    (dbFails : Bool) : RouteResult InteractionD × RepoState :=
  let p := verify_user_ownership st cid uid
  if p.1 then
    match service_add_message p.2 cid message t dbFails with
    | (some d, st2) => (.ok d, st2)
    | (none, st2) => (.error 404, st2)
  else (.error 403, p.2)

/-- The `PATCH /chats/{chat_id}/messages/{interaction_id}` handler: ownership
is checked on the PATH chat id, while the edit acts on the chat resolved from
the interaction id alone. -/
def route_edit_message (st : RepoState) (cid iid : Nat) (message : String)
    (uid t : Nat) (dbFails : Bool) : RouteResult (List InteractionD) × RepoState :=
  let p := verify_user_ownership st cid uid
  if p.1 then
    match service_edit_message p.2 iid message t dbFails with
    | (some l, st2) => (.ok l, st2)
    | (none, st2) => (.error 404, st2)
  else (.error 403, p.2)

/-- The `DELETE /chats/{chat_id}/messages/{interaction_id}` handler: ownership
is checked on the PATH chat id, while the delete acts on the chat resolved
from the interaction id alone. -/
def route_delete_message (st : RepoState) (cid iid : Nat) (uid : Nat)
    (dbFails : Bool) : RouteResult (List InteractionD) × RepoState :=
  let p := verify_user_ownership st cid uid
  if p.1 then
    match service_delete_message p.2 iid dbFails with
    | (some l, st2) => (.ok l, st2)
    | (none, st2) => (.error 404, st2)
  else (.error 403, p.2)

/-- The `GET /chats/{chat_id}` handler of `routes/chats.py`. -/
def route_get_chat (st : RepoState) (cid uid : Nat) :
    RouteResult ChatData × RepoState :=
  let p := verify_user_ownership st cid uid
  if p.1 then
    match get_chat p.2 cid with
    | (some cd, st2) => (.ok cd, st2)
    | (none, st2) => (.error 404, st2)
  else (.error 403, p.2)

/-- One mutating API operation, at repository granularity (for `add`/`edit`
the service layer supplies `resp := get_response msg`; the invariants below
hold for arbitrary response strings, hence for the service layer too). -/
inductive Op where
  | create (name : String) (uid : Nat)
  | add (cid : Nat) (msg resp : String)
  | edit (iid : Nat) (msg resp : String)
  | del (iid : Nat)

/-- Run one operation at logical time `t` (no storage failure). -/
def runOp (st : RepoState) (t : Nat) : Op → RepoState
  | .create name uid => (create_chat st name (get_response "Hello") uid t false).2
  | .add cid m r => (add_message st cid m r t false).2
  | .edit iid m r => (edit_message st iid m r t false).2
  | .del iid => (delete_message st iid false).2

/-- Run a sequence of operations with a strictly increasing logical clock. -/
def runOps : RepoState → Nat → List Op → RepoState
  | st, _, [] => st
  | st, t, op :: ops => runOps (runOp st t op) (t + 1) ops

/-- The state of a freshly started process over a given user table: empty
chat and interaction relations, empty caches. -/
def initState (users : List UserRow) : RepoState :=
  ⟨⟨users, [], []⟩, [], [], 0⟩

/-- The identity-bearing core of a cached interaction: everything except the
timestamp (the cached timestamp of an edited interaction may lag storage). -/
def coreD (d : InteractionD) : Nat × Nat × Option String × String :=
  (d.interaction_id, d.index, d.message, d.response)

/-- The identity-bearing core of an interaction row. -/
def coreR (r : InteractionRow) : Nat × Nat × Option String × String :=
  (r.id, r.index, r.message, r.response)

/-- The rows of one chat inside a raw interaction list. -/
def rowsOf (l : List InteractionRow) (cid : Nat) : List InteractionRow :=
  l.filter (fun r => r.chat_id == cid)

/-- The consecutive naturals `k, k+1, ..., k+n-1`. -/
def natSeq (k n : Nat) : List Nat :=
  match n with
  | 0 => []
  | n + 1 => k :: natSeq (k + 1) n

/-- Consistency of one cache entry with durable storage: the entry carries the
chat id, owner and name, and its interaction list agrees with the chat
rows on ids, indices, messages and responses (the cached timestamp of an
edited interaction is allowed to lag storage, which the source never
refreshes). -/
def cdMatches (s : Storage) (cid : Nat) (cd : ChatData) : Prop :=
  cd.chat_id = cid ∧
  (∃ c ∈ s.chats, c.id = cid ∧ cd.user_id = c.user_id ∧ cd.chat_name = c.name) ∧
  cd.interactions.map coreD = (rowsOf s.interactions cid).map coreR

/-- The reachable-state invariant of the repository: identifiers are fresh
and unique, every interaction row belongs to an existing chat, each chat
rows carry the indices `0, 1, ..., n-1` in storage order, and every cache
entry agrees with storage. -/
structure RepoInv (st : RepoState) : Prop where
  chat_lt : ∀ c ∈ st.storage.chats, c.id < st.nextId
  row_lt : ∀ r ∈ st.storage.interactions, r.id < st.nextId
  row_chat_mem : ∀ r ∈ st.storage.interactions, ∃ c ∈ st.storage.chats, c.id = r.chat_id
  chat_nodup : (st.storage.chats.map ChatRow.id).Nodup
  row_nodup : (st.storage.interactions.map InteractionRow.id).Nodup
  contig : ∀ cid, (rowsOf st.storage.interactions cid).map InteractionRow.index =
      natSeq 0 (rowsOf st.storage.interactions cid).length
  cache_ok : ∀ cid cd, assocFind cid st.chat_cache = some cd → cdMatches st.storage cid cd

/-- An interaction id that is durably deleted and smaller than the fresh-id
counter: such an id can never reappear in storage. -/
def absentRid (st : RepoState) (rid : Nat) : Prop :=
  rid < st.nextId ∧ ∀ x ∈ st.storage.interactions, x.id ≠ rid

/-- An operation is "safe" for the greeting invariant when an edit or delete
does not target the index-0 (greeting) interaction of its chat. -/
def opSafe (st : RepoState) : Op → Bool
  | Op.edit iid _ _ =>
      match findRow st.storage iid with
      | some row => decide (0 < row.index)
      | none => true
  | Op.del iid =>
      match findRow st.storage iid with
      | some row => decide (0 < row.index)
      | none => true
  | _ => true

/-- All operations of a run are safe, step by step. -/
def opsSafe : RepoState → Nat → List Op → Bool
  | _, _, [] => true
  | st, t, op :: ops => opSafe st op && opsSafe (runOp st t op) (t + 1) ops

/-- Every chat on record still has its greeting: an interaction at index 0
with a null message. -/
def greetOk (s : Storage) : Prop :=
  ∀ c ∈ s.chats, ∃ x ∈ s.interactions, x.chat_id = c.id ∧ x.index = 0 ∧ x.message = none

/-- Two registered users for the concrete scenarios. -/
def exUsers : List UserRow := [⟨100, "alice"⟩, ⟨200, "bob"⟩]

/-- One chat of user 100 (chat id 0, greeting interaction id 1). -/
def exSimpleState : RepoState := runOps (initState exUsers) 0 [Op.create "trip" 100]

/-- Chat 0 after an add (id 2, index 1) and an edit of that interaction:
the cache keeps the pre-edit timestamp while storage holds the new one. -/
def exEditedState : RepoState :=
  runOps (initState exUsers) 0
    [Op.create "trip" 100, Op.add 0 "hi" "r1", Op.edit 2 "yo" "r2"]

/-- Chat 0 with its greeting (id 1, index 0) deleted: zero interactions. -/
def exEmptiedState : RepoState :=
  runOps (initState exUsers) 0 [Op.create "trip" 100, Op.del 1]

/-- User 100 owns chat 0; user 200 owns chat 2, which holds the greeting
(id 3) and one further interaction (id 4). -/
def exCrossState : RepoState :=
  runOps (initState exUsers) 0
    [Op.create "a" 100, Op.create "b" 200, Op.add 2 "hi" "r1"]

/-- Chat 0 of user 100 with two added interactions (ids 2 and 3). -/
def exTwoAddState : RepoState :=
  runOps (initState exUsers) 0
    [Op.create "trip" 100, Op.add 0 "hi" "r1", Op.add 0 "yo" "r2"]

/-- The chat dictionary of chat 0 in `exSimpleState` (cache entry and
`loadChat` result alike). -/
def exLoadedCd : ChatData :=
  ⟨100, "trip", 0, [⟨1, 0, none, "Hello! How can I assist you today?", 0⟩]⟩

theorem natSeq_snoc (k n : Nat) : natSeq k (n + 1) = natSeq k n ++ [k + n] := by
  induction n generalizing k with
  | zero => rfl
  | succ n ih =>
    show k :: natSeq (k + 1) (n + 1) = (k :: natSeq (k + 1) n) ++ [k + (n + 1)]
    rw [ih]
    simp [Nat.add_comm, Nat.add_assoc, Nat.add_left_comm]

theorem natSeq_zero_eq_range (n : Nat) : natSeq 0 n = List.range n := by
  induction n with
  | zero => rfl
  | succ n ih =>
    rw [natSeq_snoc, ih, List.range_succ]
    simp

theorem length_natSeq (k n : Nat) : (natSeq k n).length = n := by
  induction n generalizing k with
  | zero => rfl
  | succ n ih => simpa [natSeq] using ih (k + 1)

theorem mem_natSeq {x k n : Nat} (h : x ∈ natSeq k n) : k ≤ x ∧ x < k + n := by
  induction n generalizing k x with
  | zero => cases h
  | succ n ih =>
    rw [show natSeq k (n + 1) = k :: natSeq (k + 1) n from rfl] at h
    rcases List.mem_cons.mp h with rfl | h
    · omega
    · have := ih h
      omega

theorem take_natSeq (k n m : Nat) : (natSeq k n).take m = natSeq k (min m n) := by
  induction n generalizing k m with
  | zero => simp [natSeq]
  | succ n ih =>
    cases m with
    | zero => simp [natSeq]
    | succ m =>
      show (k :: natSeq (k + 1) n).take (m + 1) = natSeq k (min (m + 1) (n + 1))
      have : min (m + 1) (n + 1) = (min m n) + 1 := by omega
      rw [this]
      simp [natSeq, List.take, ih (k + 1) m]

theorem assocFind_set_self {α : Type} (k : Nat) (v : α) (m : List (Nat × α)) :
    assocFind k (assocSet k v m) = some v := by
  induction m with
  | nil => simp [assocSet, assocFind]
  | cons p rest ih =>
    by_cases h : p.1 = k
    · simp [assocSet, assocFind, h]
    · have hb : (p.1 == k) = false := by simp [h]
      simp [assocSet, assocFind, hb, ih]

theorem assocFind_set_ne {α : Type} {k' k : Nat} (h : k' ≠ k) (v : α)
    (m : List (Nat × α)) : assocFind k' (assocSet k v m) = assocFind k' m := by
  induction m with
  | nil =>
    have hb : (k == k') = false := by simp [Ne.symm h]
    simp [assocSet, assocFind, hb]
  | cons p rest ih =>
    by_cases hp : p.1 = k
    · simp [assocSet, assocFind, hp, h, Ne.symm h]
    · by_cases hk' : p.1 = k'
      · simp [assocSet, assocFind, hp, hk', h, Ne.symm h]
      · simp [assocSet, assocFind, hp, hk', ih]

theorem mem_rowsOf {r : InteractionRow} {l : List InteractionRow} {cid : Nat} :
    r ∈ rowsOf l cid ↔ r ∈ l ∧ r.chat_id = cid := by
  simp [rowsOf, List.mem_filter]

theorem rowsOf_append (l l' : List InteractionRow) (cid : Nat) :
    rowsOf (l ++ l') cid = rowsOf l cid ++ rowsOf l' cid := by
  simp [rowsOf, List.filter_append]

theorem rowsOf_single_self {r : InteractionRow} {cid : Nat} (h : r.chat_id = cid) :
    rowsOf [r] cid = [r] := by
  simp [rowsOf, h]

theorem rowsOf_single_ne {r : InteractionRow} {cid : Nat} (h : r.chat_id ≠ cid) :
    rowsOf [r] cid = [] := by
  simp [rowsOf, h]

theorem rowsOf_eq_nil {l : List InteractionRow} {cid : Nat}
    (h : ∀ r ∈ l, r.chat_id ≠ cid) : rowsOf l cid = [] := by
  simp only [rowsOf, List.filter_eq_nil_iff]
  intro r hr
  simp [h r hr]

theorem eq_of_nodup_ids {l : List InteractionRow}
    (h : (l.map InteractionRow.id).Nodup) {a b : InteractionRow}
    (ha : a ∈ l) (hb : b ∈ l) (hid : a.id = b.id) : a = b := by
  induction l with
  | nil => cases ha
  | cons x xs ih =>
    rw [List.map_cons, List.nodup_cons] at h
    rcases List.mem_cons.mp ha with rfl | ha' <;> rcases List.mem_cons.mp hb with rfl | hb'
    · rfl
    · exact absurd (hid ▸ List.mem_map_of_mem InteractionRow.id hb') h.1
    · exact absurd (hid ▸ List.mem_map_of_mem InteractionRow.id ha') h.1
    · exact ih h.2 ha' hb'

theorem findRow_mem {s : Storage} {iid : Nat} {row : InteractionRow}
    (h : findRow s iid = some row) : row ∈ s.interactions ∧ row.id = iid := by
  refine ⟨List.mem_of_find?_eq_some h, ?_⟩
  have := List.find?_some h
  simpa using this

theorem findChat_of_mem {s : Storage} {cid : Nat} {c : ChatRow}
    (hnd : (s.chats.map ChatRow.id).Nodup) (hc : c ∈ s.chats) (hid : c.id = cid) :
    findChat s cid = some c := by
  have : ∀ (l : List ChatRow), (l.map ChatRow.id).Nodup → c ∈ l →
      l.find? (fun x => x.id == cid) = some c := by
    intro l
    induction l with
    | nil => intro _ h; cases h
    | cons x xs ih =>
      intro hnd hmem
      rw [List.map_cons, List.nodup_cons] at hnd
      rcases List.mem_cons.mp hmem with rfl | hmem'
      · simp [List.find?, hid]
      · have hne : x.id ≠ cid := by
          intro hx
          have : c.id ∈ List.map ChatRow.id xs := List.mem_map_of_mem ChatRow.id hmem'
          rw [hid] at this
          rw [hx] at hnd
          exact hnd.1 this
        have hx : (x.id == cid) = false := by simp [hne]
        simp [List.find?, hx, ih hnd.2 hmem']
  exact this s.chats hnd hc

theorem find?_append_single_ne {α : Type} {p : α → Bool} {a : α}
    (h : p a = false) (l : List α) : (l ++ [a]).find? p = l.find? p := by
  induction l with
  | nil => simp [List.find?, h]
  | cons x xs ih =>
    by_cases hx : p x
    · simp [List.find?, hx]
    · simp only [Bool.not_eq_true] at hx
      simp [List.find?, hx, ih]

theorem filterTruncGt {l : List InteractionRow} {k : Nat} (i : Nat)
    (h : l.map InteractionRow.index = natSeq k l.length) :
    l.filter (fun x => !(decide (i < x.index))) = l.take (i + 1 - k) := by
  induction l generalizing k with
  | nil => simp
  | cons x xs ih =>
    have hx : x.index = k := by
      have := congrArg (fun l => l.headI) h
      simpa [natSeq] using this
    have hxs : xs.map InteractionRow.index = natSeq (k + 1) xs.length := by
      have := congrArg (fun l => l.tail) h
      simpa [natSeq] using this
    have hrec := ih hxs
    by_cases hik : i < k
    · have hcond : (!(decide (i < x.index))) = false := by simp [hx, hik]
      have h1 : i + 1 - (k + 1) = 0 := by omega
      have h0 : i + 1 - k = 0 := by omega
      rw [h1] at hrec
      rw [List.filter_cons, hcond, h0]
      simp [hrec]
    · have hcond : (!(decide (i < x.index))) = true := by simp [hx, hik]
      have h2 : i + 1 - k = (i - k) + 1 := by omega
      have h1 : i + 1 - (k + 1) = i - k := by omega
      rw [h1] at hrec
      rw [List.filter_cons, hcond, h2, List.take_succ_cons]
      simp [hrec]

theorem filterTruncGe {l : List InteractionRow} {k : Nat} (i : Nat)
    (h : l.map InteractionRow.index = natSeq k l.length) :
    l.filter (fun x => !(decide (i ≤ x.index))) = l.take (i - k) := by
  induction l generalizing k with
  | nil => simp
  | cons x xs ih =>
    have hx : x.index = k := by
      have := congrArg (fun l => l.headI) h
      simpa [natSeq] using this
    have hxs : xs.map InteractionRow.index = natSeq (k + 1) xs.length := by
      have := congrArg (fun l => l.tail) h
      simpa [natSeq] using this
    have hrec := ih hxs
    by_cases hik : i ≤ k
    · have hcond : (!(decide (i ≤ x.index))) = false := by simp [hx, hik]
      have h1 : i - (k + 1) = 0 := by omega
      have h0 : i - k = 0 := by omega
      rw [h1] at hrec
      rw [List.filter_cons, hcond, h0]
      simp [hrec]
    · have hcond : (!(decide (i ≤ x.index))) = true := by simp [hx, hik]
      have h2 : i - k = (i - (k + 1)) + 1 := by omega
      rw [List.filter_cons, hcond, h2, List.take_succ_cons]
      simp [hrec]

theorem sortByIndex_eq_self {l : List InteractionRow} {k : Nat}
    (h : l.map InteractionRow.index = natSeq k l.length) : sortByIndex l = l := by
  induction l generalizing k with
  | nil => rfl
  | cons x xs ih =>
    have hx : x.index = k := by
      have := congrArg (fun l => l.headI) h
      simpa [natSeq] using this
    have hxs : xs.map InteractionRow.index = natSeq (k + 1) xs.length := by
      have := congrArg (fun l => l.tail) h
      simpa [natSeq] using this
    rw [sortByIndex, ih hxs]
    cases xs with
    | nil => rfl
    | cons y ys =>
      have hy : y.index = k + 1 := by
        have := congrArg (fun l => l.headI) hxs
        simpa [natSeq] using this
      have : x.index < y.index := by omega
      simp [insertByIndex, this]

theorem upd_map_index (l : List InteractionRow) (iid : Nat) (m r : String) (t : Nat) :
    (updateRowById l iid m r t).map InteractionRow.index = l.map InteractionRow.index := by
  induction l with
  | nil => rfl
  | cons x xs ih =>
    by_cases hx : x.id = iid
    · simp [updateRowById, hx]
    · simp [updateRowById, hx, ih]

theorem upd_map_id (l : List InteractionRow) (iid : Nat) (m r : String) (t : Nat) :
    (updateRowById l iid m r t).map InteractionRow.id = l.map InteractionRow.id := by
  induction l with
  | nil => rfl
  | cons x xs ih =>
    by_cases hx : x.id = iid
    · simp [updateRowById, hx]
    · simp [updateRowById, hx, ih]

theorem upd_mem {l : List InteractionRow} {iid : Nat} {m r : String} {t : Nat}
    {x : InteractionRow} (hx : x ∈ updateRowById l iid m r t) :
    ∃ y ∈ l, x.id = y.id ∧ x.chat_id = y.chat_id ∧ x.index = y.index := by
  induction l with
  | nil => cases hx
  | cons y ys ih =>
    by_cases hy : y.id = iid
    · rw [updateRowById, if_pos (by simp [hy])] at hx
      rcases List.mem_cons.mp hx with rfl | hx'
      · exact ⟨y, List.mem_cons_self y ys, rfl, rfl, rfl⟩
      · exact ⟨x, List.mem_cons_of_mem y hx', rfl, rfl, rfl⟩
    · rw [updateRowById, if_neg (by simp [hy])] at hx
      rcases List.mem_cons.mp hx with rfl | hx'
      · exact ⟨x, List.mem_cons_self x ys, rfl, rfl, rfl⟩
      · obtain ⟨z, hz, hz2⟩ := ih hx'
        exact ⟨z, List.mem_cons_of_mem y hz, hz2⟩

theorem upd_rowsOf_ne {l : List InteractionRow} {iid cid c : Nat} {m r : String} {t : Nat}
    (hl : ∀ y ∈ l, y.id = iid → y.chat_id = cid) (hc : c ≠ cid) :
    rowsOf (updateRowById l iid m r t) c = rowsOf l c := by
  induction l with
  | nil => rfl
  | cons x xs ih =>
    have hl' : ∀ y ∈ xs, y.id = iid → y.chat_id = cid :=
      fun y hy => hl y (List.mem_cons_of_mem x hy)
    by_cases hx : x.id = iid
    · have hcc : x.chat_id = cid := hl x (List.mem_cons_self x xs) hx
      rw [updateRowById, if_pos (by simp [hx])]
      have hb : (cid == c) = false := by simp [Ne.symm hc]
      simp [rowsOf, List.filter_cons, hcc, hb]
    · rw [updateRowById, if_neg (by simp [hx])]
      by_cases hxc : x.chat_id = c
      · simp [rowsOf, List.filter_cons, hxc]
        exact ih hl'
      · have hb : (x.chat_id == c) = false := by simp [hxc]
        simp [rowsOf, List.filter_cons, hb]
        exact ih hl'

theorem upd_rowsOf_self {l : List InteractionRow} {iid cid : Nat} {m r : String} {t : Nat}
    (hl : ∀ y ∈ l, y.id = iid → y.chat_id = cid) :
    rowsOf (updateRowById l iid m r t) cid = updateRowById (rowsOf l cid) iid m r t := by
  induction l with
  | nil => rfl
  | cons x xs ih =>
    have hl' : ∀ y ∈ xs, y.id = iid → y.chat_id = cid :=
      fun y hy => hl y (List.mem_cons_of_mem x hy)
    by_cases hx : x.id = iid
    · have hcc : x.chat_id = cid := hl x (List.mem_cons_self x xs) hx
      rw [updateRowById, if_pos (by simp [hx])]
      simp [rowsOf, List.filter_cons, hcc, updateRowById, hx]
    · rw [updateRowById, if_neg (by simp [hx])]
      by_cases hxc : x.chat_id = cid
      · simp [rowsOf, List.filter_cons, hxc, updateRowById, hx]
        exact ih hl'
      · have hb : (x.chat_id == cid) = false := by simp [hxc]
        simp [rowsOf, List.filter_cons, hb]
        exact ih hl'

theorem rowsOf_filter_comm (p : InteractionRow → Bool) (l : List InteractionRow) (c : Nat) :
    rowsOf (l.filter p) c = (rowsOf l c).filter p := by
  induction l with
  | nil => rfl
  | cons x xs ih =>
    by_cases hp : p x
    · by_cases hc : x.chat_id = c
      · simp [rowsOf, List.filter_cons, hp, hc] at ih ⊢
        exact ih
      · have hb : (x.chat_id == c) = false := by simp [hc]
        simp [rowsOf, List.filter_cons, hp, hb] at ih ⊢
        exact ih
    · simp only [Bool.not_eq_true] at hp
      by_cases hc : x.chat_id = c
      · simp [rowsOf, List.filter_cons, hp, hc] at ih ⊢
        exact ih
      · have hb : (x.chat_id == c) = false := by simp [hc]
        simp [rowsOf, List.filter_cons, hp, hb] at ih ⊢
        exact ih

theorem filter_guard_self (q : InteractionRow → Bool) (l : List InteractionRow) (cid : Nat) :
    (rowsOf l cid).filter (fun x => !(x.chat_id == cid && q x)) =
      (rowsOf l cid).filter (fun x => !(q x)) := by
  apply List.filter_congr
  intro x hx
  have hc : x.chat_id = cid := (mem_rowsOf.mp hx).2
  simp [hc]

theorem filter_guard_ne {c cid : Nat} (q : InteractionRow → Bool)
    (l : List InteractionRow) (hc : c ≠ cid) :
    (rowsOf l c).filter (fun x => !(x.chat_id == cid && q x)) = rowsOf l c := by
  rw [List.filter_eq_self]
  intro x hx
  have hcx : x.chat_id = c := (mem_rowsOf.mp hx).2
  simp [hcx, hc]

theorem filter_guard_of_chat (q : InteractionRow → Bool) {l : List InteractionRow}
    {cid : Nat} (hl : ∀ x ∈ l, x.chat_id = cid) :
    l.filter (fun x => !(x.chat_id == cid && q x)) = l.filter (fun x => !(q x)) := by
  apply List.filter_congr
  intro x hx
  simp [hl x hx]

theorem filter_guard_of_chat_ne {c cid : Nat} (q : InteractionRow → Bool)
    {l : List InteractionRow} (hne : c ≠ cid) (hl : ∀ x ∈ l, x.chat_id = c) :
    l.filter (fun x => !(x.chat_id == cid && q x)) = l := by
  rw [List.filter_eq_self]
  intro x hx
  simp [hl x hx, hne]

theorem chatRows_eq (s : Storage) (cid : Nat) : chatRows s cid = rowsOf s.interactions cid := rfl

theorem load_of_rows_nil {st : RepoState} {cid : Nat}
    (h : chatRows st.storage cid = []) : load_chat_from_db st cid = (none, st) := by
  simp [load_chat_from_db, h, sortByIndex]

theorem load_of_rows_ne {st : RepoState} {cid : Nat}
    (hcontig : (chatRows st.storage cid).map InteractionRow.index =
      natSeq 0 (chatRows st.storage cid).length)
    (hne : chatRows st.storage cid ≠ []) {c : ChatRow}
    (hfc : findChat st.storage cid = some c) :
    load_chat_from_db st cid =
      (some ⟨c.user_id, c.name, cid, (chatRows st.storage cid).map rowToDict⟩,
       { st with chat_cache := (assocSet cid ⟨c.user_id, c.name, cid, (chatRows st.storage cid).map rowToDict⟩ st.chat_cache) }) := by
  have hsort : sortByIndex (chatRows st.storage cid) = chatRows st.storage cid :=
    sortByIndex_eq_self hcontig
  have hemp : (chatRows st.storage cid).isEmpty = false := by
    cases hrows : chatRows st.storage cid with
    | nil => exact absurd hrows hne
    | cons a as => simp
  simp [load_chat_from_db, hsort, hemp, hfc]

theorem load_some_state {st st1 : RepoState} {cid : Nat} {cd : ChatData}
    (h : load_chat_from_db st cid = (some cd, st1)) :
    st1 = { st with chat_cache := assocSet cid cd st.chat_cache } := by
  simp only [load_chat_from_db] at h
  split at h
  · cases h
  · split at h
    · cases h
    · rw [Prod.mk.injEq] at h
      obtain ⟨h1, h2⟩ := h
      rw [Option.some.injEq] at h1
      rw [← h2, h1]

theorem load_none_state {st st1 : RepoState} {cid : Nat}
    (h : load_chat_from_db st cid = (none, st1)) : st1 = st := by
  simp only [load_chat_from_db] at h
  split at h
  · cases h; rfl
  · split at h
    · cases h; rfl
    · cases h

theorem coreD_rowToDict (r : InteractionRow) : coreD (rowToDict r) = coreR r := rfl

theorem map_coreD_map_rowToDict (l : List InteractionRow) :
    (l.map rowToDict).map coreD = l.map coreR := by
  rw [List.map_map]
  rfl

theorem inv_load {st : RepoState} (h : RepoInv st) (cid : Nat) :
    RepoInv ((load_chat_from_db st cid).2) ∧
      (∀ cd, (load_chat_from_db st cid).1 = some cd →
        cdMatches st.storage cid cd ∧
        cd = ⟨cd.user_id, cd.chat_name, cid, (chatRows st.storage cid).map rowToDict⟩) := by
  by_cases hnil : chatRows st.storage cid = []
  · rw [load_of_rows_nil hnil]
    exact ⟨h, by intro cd hcd; cases hcd⟩
  · obtain ⟨r, hr⟩ := List.exists_mem_of_ne_nil _ hnil
    have hrm := mem_rowsOf.mp hr
    obtain ⟨c, hc, hcid⟩ := h.row_chat_mem r hrm.1
    have hfc : findChat st.storage cid = some c :=
      findChat_of_mem h.chat_nodup hc (by rw [hcid, hrm.2])
    have hmatch : cdMatches st.storage cid
        ⟨c.user_id, c.name, cid, (chatRows st.storage cid).map rowToDict⟩ := by
      refine ⟨rfl, ⟨c, hc, (by rw [hcid, hrm.2]), rfl, rfl⟩, ?_⟩
      exact map_coreD_map_rowToDict _
    rw [load_of_rows_ne (h.contig cid) hnil hfc]
    constructor
    · refine ⟨h.chat_lt, h.row_lt, h.row_chat_mem, h.chat_nodup, h.row_nodup, h.contig, ?_⟩
      intro cid' cd' hcd'
      by_cases hq : cid' = cid
      · subst hq
        rw [assocFind_set_self] at hcd'
        rw [Option.some.injEq] at hcd'
        rw [← hcd']
        exact hmatch
      · rw [assocFind_set_ne hq] at hcd'
        exact h.cache_ok cid' cd' hcd'
    · intro cd hcd
      rw [Option.some.injEq] at hcd
      rw [← hcd]
      exact ⟨hmatch, rfl⟩

theorem rowsOf_fresh {st : RepoState} (h : RepoInv st) {cid : Nat} (hc : st.nextId ≤ cid) :
    rowsOf st.storage.interactions cid = [] := by
  apply rowsOf_eq_nil
  intro r hr
  obtain ⟨c, hcm, hcid⟩ := h.row_chat_mem r hr
  have := h.chat_lt c hcm
  omega

theorem create_spec (st : RepoState) (name g : String) (uid t : Nat) :
    create_chat st name g uid t false =
      (some (st.nextId, ⟨st.nextId + 1, 0, none, g, t⟩, name),
       { storage :=
          { users := st.storage.users,
            chats := st.storage.chats ++ [⟨st.nextId, uid, name⟩],
            interactions :=
              st.storage.interactions ++ [⟨st.nextId + 1, st.nextId, 0, none, g, t⟩] },
         chat_cache :=
          (assocSet st.nextId ⟨uid, name, st.nextId, [⟨st.nextId + 1, 0, none, g, t⟩]⟩ st.chat_cache),
         user_chats_cache :=
          (match assocFind uid st.user_chats_cache with
           | some l => assocSet uid (l ++ [(st.nextId, name)]) st.user_chats_cache
           | none => assocSet uid [(st.nextId, name)] st.user_chats_cache),
         nextId := st.nextId + 2 }) := rfl

theorem create_state (st : RepoState) (name g : String) (uid t : Nat) :
    (create_chat st name g uid t false).2 =
      { storage :=
          { users := st.storage.users,
            chats := st.storage.chats ++ [⟨st.nextId, uid, name⟩],
            interactions :=
              st.storage.interactions ++ [⟨st.nextId + 1, st.nextId, 0, none, g, t⟩] },
        chat_cache :=
          (assocSet st.nextId ⟨uid, name, st.nextId, [⟨st.nextId + 1, 0, none, g, t⟩]⟩ st.chat_cache),
        user_chats_cache :=
          (match assocFind uid st.user_chats_cache with
           | some l => assocSet uid (l ++ [(st.nextId, name)]) st.user_chats_cache
           | none => assocSet uid [(st.nextId, name)] st.user_chats_cache),
        nextId := st.nextId + 2 } := rfl

theorem inv_create {st : RepoState} (h : RepoInv st) (name g : String) (uid t : Nat) :
    RepoInv ((create_chat st name g uid t false).2) := by
  rw [create_state]
  have hfreshrows : rowsOf st.storage.interactions st.nextId = [] :=
    rowsOf_fresh h (Nat.le_refl _)
  constructor <;> dsimp only
  · intro c hc
    rcases List.mem_append.mp hc with hc' | hc'
    · have := h.chat_lt c hc'
      omega
    · rcases List.mem_singleton.mp hc' with rfl
      simp
  · intro r hr
    rcases List.mem_append.mp hr with hr' | hr'
    · have := h.row_lt r hr'
      omega
    · rcases List.mem_singleton.mp hr' with rfl
      simp
  · intro r hr
    rcases List.mem_append.mp hr with hr' | hr'
    · obtain ⟨c, hcm, hcid⟩ := h.row_chat_mem r hr'
      exact ⟨c, List.mem_append_left _ hcm, hcid⟩
    · rcases List.mem_singleton.mp hr' with rfl
      exact ⟨⟨st.nextId, uid, name⟩,
        List.mem_append_right _ (List.mem_singleton_self _), rfl⟩
  · rw [List.map_append, List.nodup_append]
    refine ⟨h.chat_nodup, by simp, ?_⟩
    intro a ha hb
    simp only [List.map_cons, List.map_nil, List.mem_singleton] at hb
    obtain ⟨c, hc, rfl⟩ := List.mem_map.mp ha
    have := h.chat_lt c hc
    omega
  · rw [List.map_append, List.nodup_append]
    refine ⟨h.row_nodup, by simp, ?_⟩
    intro a ha hb
    simp only [List.map_cons, List.map_nil, List.mem_singleton] at hb
    obtain ⟨r, hr, rfl⟩ := List.mem_map.mp ha
    have := h.row_lt r hr
    omega
  · intro cid
    simp only [rowsOf_append]
    by_cases hq : cid = st.nextId
    · subst hq
      rw [hfreshrows]
      rw [rowsOf_single_self rfl]
      rfl
    · rw [rowsOf_single_ne (by simpa using Ne.symm hq)]
      simpa using h.contig cid
  · intro cid cd hcd
    by_cases hq : cid = st.nextId
    · subst hq
      rw [assocFind_set_self] at hcd
      rw [Option.some.injEq] at hcd
      subst hcd
      refine ⟨rfl, ⟨⟨st.nextId, uid, name⟩,
        List.mem_append_right _ (List.mem_singleton_self _), rfl, rfl, rfl⟩, ?_⟩
      simp only [rowsOf_append, hfreshrows, rowsOf_single_self rfl]
      rfl
    · rw [assocFind_set_ne hq] at hcd
      obtain ⟨h1, ⟨c, hc, hcid, hu, hn⟩, h3⟩ := h.cache_ok cid cd hcd
      refine ⟨h1, ⟨c, List.mem_append_left _ hc, hcid, hu, hn⟩, ?_⟩
      rw [rowsOf_append, rowsOf_single_ne (by simpa using Ne.symm hq)]
      simpa using h3

theorem add_cached_spec {st : RepoState} {cid : Nat} {cd : ChatData}
    (hcd : assocFind cid st.chat_cache = some cd) (m r : String) (t : Nat) :
    add_message st cid m r t false =
      (some ⟨st.nextId, cd.interactions.length, some m, r, t⟩,
       { storage :=
          { users := st.storage.users, chats := st.storage.chats,
            interactions := st.storage.interactions ++
              [⟨st.nextId, cid, cd.interactions.length, some m, r, t⟩] },
         chat_cache := (assocSet cid
           { cd with interactions := cd.interactions ++
               [⟨st.nextId, cd.interactions.length, some m, r, t⟩] } st.chat_cache),
         user_chats_cache := st.user_chats_cache,
         nextId := st.nextId + 1 }) := by
  simp [add_message, assocMem, hcd, create_interaction]

theorem add_uncached_some {st st1 : RepoState} {cid : Nat} {cdL : ChatData}
    {m r : String} {t : Nat} {f : Bool}
    (hmem : assocFind cid st.chat_cache = none)
    (hload : load_chat_from_db st cid = (some cdL, st1)) :
    add_message st cid m r t f = add_message st1 cid m r t f := by
  have hst1 : st1 = { st with chat_cache := assocSet cid cdL st.chat_cache } :=
    load_some_state hload
  have hmem1 : assocFind cid st1.chat_cache = some cdL := by
    rw [hst1]
    exact assocFind_set_self _ _ _
  simp [add_message, assocMem, hmem, hload, hmem1]

theorem add_uncached_none {st st1 : RepoState} {cid : Nat} {m r : String} {t : Nat}
    {f : Bool} (hmem : assocFind cid st.chat_cache = none)
    (hload : load_chat_from_db st cid = (none, st1)) :
    add_message st cid m r t f = (none, st1) := by
  simp [add_message, assocMem, hmem, hload]

theorem inv_add_cached {st : RepoState} (h : RepoInv st) {cid : Nat} {cd : ChatData}
    (hcd : assocFind cid st.chat_cache = some cd) (m r : String) (t : Nat) :
    RepoInv ((add_message st cid m r t false).2) := by
  rw [add_cached_spec hcd]
  obtain ⟨hcdid, ⟨c, hc, hcid, hcu, hcn⟩, hcore⟩ := h.cache_ok cid cd hcd
  have hlen : cd.interactions.length = (rowsOf st.storage.interactions cid).length := by
    have := congrArg List.length hcore
    simpa using this
  constructor <;> dsimp only
  · intro c' hc'
    have := h.chat_lt c' hc'
    omega
  · intro r' hr'
    rcases List.mem_append.mp hr' with hr'' | hr''
    · have := h.row_lt r' hr''
      omega
    · rcases List.mem_singleton.mp hr'' with rfl
      simp
  · intro r' hr'
    rcases List.mem_append.mp hr' with hr'' | hr''
    · exact h.row_chat_mem r' hr''
    · rcases List.mem_singleton.mp hr'' with rfl
      exact ⟨c, hc, hcid⟩
  · exact h.chat_nodup
  · rw [List.map_append, List.nodup_append]
    refine ⟨h.row_nodup, by simp, ?_⟩
    intro a ha hb
    simp only [List.map_cons, List.map_nil, List.mem_singleton] at hb
    obtain ⟨r', hr', rfl⟩ := List.mem_map.mp ha
    have := h.row_lt r' hr'
    omega
  · intro cid'
    simp only [rowsOf_append]
    by_cases hq : cid' = cid
    · subst hq
      rw [rowsOf_single_self rfl]
      rw [List.map_append, h.contig cid', List.length_append]
      simp [hlen, natSeq_snoc]
    · rw [rowsOf_single_ne (by simpa using Ne.symm hq)]
      simpa using h.contig cid'
  · intro cid' cd' hcd'
    by_cases hq : cid' = cid
    · subst hq
      rw [assocFind_set_self] at hcd'
      rw [Option.some.injEq] at hcd'
      subst hcd'
      refine ⟨hcdid, ⟨c, hc, hcid, hcu, hcn⟩, ?_⟩
      dsimp only
      rw [rowsOf_append, rowsOf_single_self rfl, List.map_append, List.map_append, hcore]
      rfl
    · rw [assocFind_set_ne hq] at hcd'
      obtain ⟨h1, h2, h3⟩ := h.cache_ok cid' cd' hcd'
      refine ⟨h1, h2, ?_⟩
      rw [rowsOf_append, rowsOf_single_ne (by simpa using Ne.symm hq)]
      simpa using h3

theorem inv_add {st : RepoState} (h : RepoInv st) (cid : Nat) (m r : String) (t : Nat) :
    RepoInv ((add_message st cid m r t false).2) := by
  cases hmem : assocFind cid st.chat_cache with
  | some cd => exact inv_add_cached h hmem m r t
  | none =>
    cases hload : load_chat_from_db st cid with
    | mk res st1 =>
      cases res with
      | none =>
        rw [add_uncached_none hmem hload]
        have : st1 = st := load_none_state hload
        rw [this]
        exact h
      | some cdL =>
        rw [add_uncached_some hmem hload]
        have hinv1 : RepoInv st1 := by
          have := (inv_load h cid).1
          rw [hload] at this
          exact this
        have hcd1 : assocFind cid st1.chat_cache = some cdL := by
          rw [load_some_state hload]
          exact assocFind_set_self _ _ _
        exact inv_add_cached hinv1 hcd1 m r t


theorem editStorage_interactions (s : Storage) (iid cid i : Nat) (m r : String) (t : Nat) :
    (editStorage s iid cid i m r t).interactions =
      (updateRowById s.interactions iid m r t).filter
        (fun x => !(x.chat_id == cid && decide (i < x.index))) := rfl

theorem editStorage_users (s : Storage) (iid cid i : Nat) (m r : String) (t : Nat) :
    (editStorage s iid cid i m r t).users = s.users := rfl

theorem editStorage_chats (s : Storage) (iid cid i : Nat) (m r : String) (t : Nat) :
    (editStorage s iid cid i m r t).chats = s.chats := rfl

theorem delStorage_interactions (s : Storage) (cid i : Nat) :
    (delStorage s cid i).interactions =
      s.interactions.filter (fun x => !(x.chat_id == cid && decide (i ≤ x.index))) := rfl

theorem delStorage_users (s : Storage) (cid i : Nat) :
    (delStorage s cid i).users = s.users := rfl

theorem delStorage_chats (s : Storage) (cid i : Nat) :
    (delStorage s cid i).chats = s.chats := rfl

theorem edit_notfound {st : RepoState} {iid : Nat} {m r : String} {t : Nat} {f : Bool}
    (hfind : findRow st.storage iid = none) : edit_message st iid m r t f = (none, st) := by
  simp [edit_message, hfind]

theorem edit_cached_spec {st : RepoState} {iid : Nat} {row : InteractionRow}
    {cd : ChatData} {m r : String} {t : Nat}
    (hfind : findRow st.storage iid = some row)
    (hcd : assocFind row.chat_id st.chat_cache = some cd) :
    edit_message st iid m r t false =
      (some (truncAt cd.interactions iid m r),
       { st with
          storage := editStorage st.storage iid row.chat_id row.index m r t,
          chat_cache := (assocSet row.chat_id
            { cd with interactions := truncAt cd.interactions iid m r } st.chat_cache) }) := by
  simp [edit_message, hfind, hcd]

theorem edit_uncached_spec {st : RepoState} {iid : Nat} {row : InteractionRow}
    {m r : String} {t : Nat}
    (hfind : findRow st.storage iid = some row)
    (hcd : assocFind row.chat_id st.chat_cache = none) :
    edit_message st iid m r t false =
      (match load_chat_from_db
          { st with storage := editStorage st.storage iid row.chat_id row.index m r t }
          row.chat_id with
       | (some cd, st2) => (some cd.interactions, st2)
       | (none, st2) => (none, st2)) := by
  simp [edit_message, hfind, hcd]

theorem nodup_ids_filter {l : List InteractionRow} (p : InteractionRow → Bool)
    (h : (l.map InteractionRow.id).Nodup) :
    ((l.filter p).map InteractionRow.id).Nodup :=
  List.Nodup.sublist (List.Sublist.map InteractionRow.id (List.filter_sublist l)) h

theorem unique_chat_of_find {st : RepoState} (h : RepoInv st) {iid : Nat}
    {row : InteractionRow} (hfind : findRow st.storage iid = some row) :
    ∀ y ∈ st.storage.interactions, y.id = iid → y.chat_id = row.chat_id := by
  intro y hy hyid
  have hm := findRow_mem hfind
  have : y = row := eq_of_nodup_ids h.row_nodup hy hm.1 (by rw [hyid, hm.2])
  rw [this]

theorem upd_length (l : List InteractionRow) (iid : Nat) (m r : String) (t : Nat) :
    (updateRowById l iid m r t).length = l.length := by
  have := congrArg List.length (upd_map_index l iid m r t)
  simpa using this

theorem edit_rowsOf_self {st : RepoState} (h : RepoInv st) {iid : Nat}
    {row : InteractionRow} (hfind : findRow st.storage iid = some row)
    (m r : String) (t : Nat) :
    rowsOf (editStorage st.storage iid row.chat_id row.index m r t).interactions
        row.chat_id =
      (updateRowById (rowsOf st.storage.interactions row.chat_id) iid m r t).take
        (row.index + 1) := by
  have hl := unique_chat_of_find h hfind
  rw [editStorage_interactions, rowsOf_filter_comm, upd_rowsOf_self hl]
  have hchat : ∀ x ∈ updateRowById (rowsOf st.storage.interactions row.chat_id) iid m r t,
      x.chat_id = row.chat_id := by
    intro x hx
    obtain ⟨y, hy, _, hcy, _⟩ := upd_mem hx
    rw [hcy]
    exact (mem_rowsOf.mp hy).2
  rw [filter_guard_of_chat _ hchat]
  have hidx : (updateRowById (rowsOf st.storage.interactions row.chat_id) iid m r t).map
      InteractionRow.index =
      natSeq 0
        (updateRowById (rowsOf st.storage.interactions row.chat_id) iid m r t).length := by
    rw [upd_map_index, upd_length]
    exact h.contig row.chat_id
  have hres := filterTruncGt row.index hidx
  simpa using hres

theorem edit_rowsOf_ne {st : RepoState} (h : RepoInv st) {iid : Nat}
    {row : InteractionRow} (hfind : findRow st.storage iid = some row)
    {c : Nat} (hne : c ≠ row.chat_id) (m r : String) (t : Nat) :
    rowsOf (editStorage st.storage iid row.chat_id row.index m r t).interactions c =
      rowsOf st.storage.interactions c := by
  have hl := unique_chat_of_find h hfind
  rw [editStorage_interactions, rowsOf_filter_comm, upd_rowsOf_ne hl hne]
  exact filter_guard_of_chat_ne _ hne (fun x hx => (mem_rowsOf.mp hx).2)

theorem coreD_eq_parts {d : InteractionD} {x : InteractionRow} (h : coreD d = coreR x) :
    d.interaction_id = x.id ∧ d.index = x.index ∧ d.message = x.message ∧
      d.response = x.response := by
  simp only [coreD, coreR, Prod.mk.injEq] at h
  exact ⟨h.1, h.2.1, h.2.2.1, h.2.2.2⟩

theorem truncAt_core (iid : Nat) (m r : String) (t : Nat) :
    ∀ (D : List InteractionD) (R : List InteractionRow) (k i : Nat),
      D.map coreD = R.map coreR →
      R.map InteractionRow.index = natSeq k R.length →
      (R.map InteractionRow.id).Nodup →
      (∃ y ∈ R, y.id = iid ∧ y.index = i) →
      (truncAt D iid m r).map coreD =
        ((updateRowById R iid m r t).take (i + 1 - k)).map coreR := by
  intro D
  induction D with
  | nil =>
    intro R k i hcore _ _ _
    have hR : R = [] := by
      have hmap : R.map coreR = [] := by simpa using hcore.symm
      simpa using List.map_eq_nil_iff.mp hmap
    subst hR
    simp [truncAt, updateRowById]
  | cons d D' ih =>
    intro R k i hcore hidx hnd hfound
    cases R with
    | nil => simp at hcore
    | cons x R' =>
      rw [List.map_cons, List.map_cons, List.cons.injEq] at hcore
      have hdx : coreD d = coreR x := hcore.1
      have htail : D'.map coreD = R'.map coreR := hcore.2
      obtain ⟨hdid, hdidx, _, _⟩ := coreD_eq_parts hdx
      have hxk : x.index = k := by
        have := congrArg (fun l => l.headI) hidx
        simpa [natSeq] using this
      have hidx' : R'.map InteractionRow.index = natSeq (k + 1) R'.length := by
        have := congrArg (fun l => l.tail) hidx
        simpa [natSeq] using this
      rw [List.map_cons, List.nodup_cons] at hnd
      obtain ⟨y, hy, hyid, hyidx⟩ := hfound
      by_cases hxid : x.id = iid
      · have hyx : y = x := by
          rcases List.mem_cons.mp hy with rfl | hy'
          · rfl
          · exfalso
            apply hnd.1
            have hmem : y.id ∈ R'.map InteractionRow.id :=
              List.mem_map_of_mem InteractionRow.id hy'
            rw [hyid, ← hxid] at hmem
            exact hmem
        have hik : i = k := by rw [← hyidx, hyx, hxk]
        have h1 : i + 1 - k = 1 := by omega
        rw [truncAt, if_pos (by simp [hdid, hxid]), updateRowById,
          if_pos (by simp [hxid]), h1]
        simp only [List.take_succ_cons, List.take_zero, List.map_cons, List.map_nil]
        simp only [coreD, coreR] at hdx ⊢
        simp only [Prod.mk.injEq] at hdx
        simp [hdx.1, hdx.2.1]
      · have hyR' : y ∈ R' := by
          rcases List.mem_cons.mp hy with rfl | hy'
          · exact absurd hyid hxid
          · exact hy'
        have hki : k + 1 ≤ i := by
          have hmem : y.index ∈ R'.map InteractionRow.index :=
            List.mem_map_of_mem InteractionRow.index hyR'
          rw [hidx'] at hmem
          have := mem_natSeq hmem
          omega
        have hdne : d.interaction_id ≠ iid := by rw [hdid]; exact hxid
        have h2 : i + 1 - k = (i + 1 - (k + 1)) + 1 := by omega
        rw [truncAt, if_neg (by simp [hdne]), updateRowById, if_neg (by simp [hxid]), h2]
        simp only [List.take_succ_cons, List.map_cons]
        rw [ih R' (k + 1) i htail hidx' hnd.2 ⟨y, hyR', hyid, hyidx⟩]
        rw [hdx]

theorem rowsOf_nodup_ids {st : RepoState} (h : RepoInv st) (cid : Nat) :
    ((rowsOf st.storage.interactions cid).map InteractionRow.id).Nodup :=
  nodup_ids_filter _ h.row_nodup

theorem inv_edit_storage_fields {st : RepoState} (h : RepoInv st) {iid : Nat}
    {row : InteractionRow} (hfind : findRow st.storage iid = some row)
    (m r : String) (t : Nat) :
    (∀ x ∈ (editStorage st.storage iid row.chat_id row.index m r t).interactions,
        x.id < st.nextId) ∧
    (∀ x ∈ (editStorage st.storage iid row.chat_id row.index m r t).interactions,
        ∃ c ∈ st.storage.chats, c.id = x.chat_id) ∧
    (((editStorage st.storage iid row.chat_id row.index m r t).interactions.map
        InteractionRow.id).Nodup) ∧
    (∀ cid', (rowsOf (editStorage st.storage iid row.chat_id row.index m r t).interactions
        cid').map InteractionRow.index =
      natSeq 0 (rowsOf (editStorage st.storage iid row.chat_id row.index m r t).interactions
        cid').length) := by
  refine ⟨?_, ?_, ?_, ?_⟩
  · intro x hx
    rw [editStorage_interactions] at hx
    obtain ⟨y, hy, hid, _, _⟩ := upd_mem (List.mem_of_mem_filter hx)
    rw [hid]
    exact h.row_lt y hy
  · intro x hx
    rw [editStorage_interactions] at hx
    obtain ⟨y, hy, _, hcy, _⟩ := upd_mem (List.mem_of_mem_filter hx)
    rw [hcy]
    exact h.row_chat_mem y hy
  · rw [editStorage_interactions]
    apply nodup_ids_filter
    rw [upd_map_id]
    exact h.row_nodup
  · intro cid'
    by_cases hq : cid' = row.chat_id
    · subst hq
      rw [edit_rowsOf_self h hfind m r t]
      have hlen : (updateRowById (rowsOf st.storage.interactions row.chat_id) iid m r t).length =
          (rowsOf st.storage.interactions row.chat_id).length := upd_length _ _ _ _ _
      rw [List.map_take, upd_map_index, h.contig row.chat_id, take_natSeq, List.length_take,
        hlen]
    · rw [edit_rowsOf_ne h hfind hq m r t]
      exact h.contig cid'

theorem inv_edit {st : RepoState} (h : RepoInv st) (iid : Nat) (m r : String) (t : Nat) :
    RepoInv ((edit_message st iid m r t false).2) := by
  cases hfind : findRow st.storage iid with
  | none =>
    rw [edit_notfound hfind]
    exact h
  | some row =>
    have hmem := findRow_mem hfind
    have hrowmem : row ∈ rowsOf st.storage.interactions row.chat_id :=
      mem_rowsOf.mpr ⟨hmem.1, rfl⟩
    obtain ⟨hlt, hchatmem, hnd, hcontig⟩ := inv_edit_storage_fields h hfind m r t
    cases hcd : assocFind row.chat_id st.chat_cache with
    | some cd =>
      rw [edit_cached_spec hfind hcd]
      obtain ⟨hcdid, hcdchat, hcore⟩ := h.cache_ok row.chat_id cd hcd
      constructor <;> dsimp only
      · exact h.chat_lt
      · exact hlt
      · exact hchatmem
      · exact h.chat_nodup
      · exact hnd
      · exact hcontig
      · intro cid' cd' hcd'
        by_cases hq : cid' = row.chat_id
        · subst hq
          rw [assocFind_set_self] at hcd'
          rw [Option.some.injEq] at hcd'
          subst hcd'
          refine ⟨hcdid, hcdchat, ?_⟩
          dsimp only
          rw [edit_rowsOf_self h hfind m r t]
          have := truncAt_core iid m r t cd.interactions
            (rowsOf st.storage.interactions row.chat_id) 0 row.index hcore
            (h.contig row.chat_id) (rowsOf_nodup_ids h row.chat_id)
            ⟨row, hrowmem, hmem.2, rfl⟩
          simpa using this
        · rw [assocFind_set_ne hq] at hcd'
          obtain ⟨h1, h2, h3⟩ := h.cache_ok cid' cd' hcd'
          refine ⟨h1, h2, ?_⟩
          rw [edit_rowsOf_ne h hfind hq m r t]
          exact h3
    | none =>
      rw [edit_uncached_spec hfind hcd]
      have hinv1 : RepoInv
          { st with storage := editStorage st.storage iid row.chat_id row.index m r t } := by
        constructor <;> dsimp only
        · exact h.chat_lt
        · exact hlt
        · exact hchatmem
        · exact h.chat_nodup
        · exact hnd
        · exact hcontig
        · intro cid' cd' hcd'
          have hq : cid' ≠ row.chat_id := by
            intro hqq
            rw [hqq, hcd] at hcd'
            cases hcd'
          obtain ⟨h1, h2, h3⟩ := h.cache_ok cid' cd' hcd'
          refine ⟨h1, h2, ?_⟩
          rw [edit_rowsOf_ne h hfind hq m r t]
          exact h3
      cases hload : load_chat_from_db
          { st with storage := editStorage st.storage iid row.chat_id row.index m r t }
          row.chat_id with
      | mk res st2 =>
        have hst2 : RepoInv st2 := by
          have := (inv_load hinv1 row.chat_id).1
          rw [hload] at this
          exact this
        cases res with
        | none => exact hst2
        | some cdL => exact hst2

theorem decide_lt_eq_not_le (a i : Nat) : decide (a < i) = !(decide (i ≤ a)) := by
  by_cases hle : i ≤ a
  · simp [hle, Nat.not_lt.mpr hle]
  · simp [hle, Nat.lt_of_not_le hle]

theorem delete_notfound {st : RepoState} {iid : Nat} {f : Bool}
    (hfind : findRow st.storage iid = none) : delete_message st iid f = (none, st) := by
  simp [delete_message, hfind]

theorem delete_cached_spec {st : RepoState} {iid : Nat} {row : InteractionRow}
    {cd : ChatData} (hfind : findRow st.storage iid = some row)
    (hcd : assocFind row.chat_id st.chat_cache = some cd) :
    delete_message st iid false =
      (some (cd.interactions.filter (fun d => decide (d.index < row.index))),
       { st with
          storage := delStorage st.storage row.chat_id row.index,
          chat_cache := (assocSet row.chat_id
            { cd with interactions :=
                cd.interactions.filter (fun d => decide (d.index < row.index)) }
            st.chat_cache) }) := by
  simp [delete_message, hfind, hcd]

theorem delete_uncached_spec {st : RepoState} {iid : Nat} {row : InteractionRow}
    (hfind : findRow st.storage iid = some row)
    (hcd : assocFind row.chat_id st.chat_cache = none) :
    delete_message st iid false =
      (some ((sortByIndex (chatRows (delStorage st.storage row.chat_id row.index)
          row.chat_id)).map rowToDict),
       { st with storage := delStorage st.storage row.chat_id row.index }) := by
  simp [delete_message, hfind, hcd]

theorem del_rowsOf_self {st : RepoState} (h : RepoInv st) (cid i : Nat) :
    rowsOf (delStorage st.storage cid i).interactions cid =
      (rowsOf st.storage.interactions cid).take i := by
  rw [delStorage_interactions, rowsOf_filter_comm,
    filter_guard_of_chat _ (fun x hx => (mem_rowsOf.mp hx).2)]
  have hres := filterTruncGe i (h.contig cid)
  simpa using hres

theorem del_rowsOf_ne {st : RepoState} {c cid : Nat} (hne : c ≠ cid) (i : Nat) :
    rowsOf (delStorage st.storage cid i).interactions c =
      rowsOf st.storage.interactions c := by
  rw [delStorage_interactions, rowsOf_filter_comm]
  exact filter_guard_of_chat_ne _ hne (fun x hx => (mem_rowsOf.mp hx).2)

theorem filter_lt_core {i : Nat} :
    ∀ (D : List InteractionD) (R : List InteractionRow),
      D.map coreD = R.map coreR →
      (D.filter (fun d => decide (d.index < i))).map coreD =
        (R.filter (fun x => decide (x.index < i))).map coreR := by
  intro D
  induction D with
  | nil =>
    intro R hcore
    have hR : R = [] := by
      have hmap : R.map coreR = [] := by simpa using hcore.symm
      simpa using List.map_eq_nil_iff.mp hmap
    subst hR
    rfl
  | cons d D' ih =>
    intro R hcore
    cases R with
    | nil => simp at hcore
    | cons x R' =>
      rw [List.map_cons, List.map_cons, List.cons.injEq] at hcore
      obtain ⟨_, hdidx, _, _⟩ := coreD_eq_parts hcore.1
      by_cases hlt : x.index < i
      · rw [List.filter_cons, List.filter_cons, if_pos (by simp [hdidx, hlt]),
          if_pos (by simp [hlt])]
        rw [List.map_cons, List.map_cons, hcore.1, ih R' hcore.2]
      · rw [List.filter_cons, List.filter_cons, if_neg (by simp [hdidx, hlt]),
          if_neg (by simp [hlt])]
        exact ih R' hcore.2

theorem inv_delete {st : RepoState} (h : RepoInv st) (iid : Nat) :
    RepoInv ((delete_message st iid false).2) := by
  cases hfind : findRow st.storage iid with
  | none =>
    rw [delete_notfound hfind]
    exact h
  | some row =>
    have hfields :
        (∀ x ∈ (delStorage st.storage row.chat_id row.index).interactions,
            x.id < st.nextId) ∧
        (∀ x ∈ (delStorage st.storage row.chat_id row.index).interactions,
            ∃ c ∈ st.storage.chats, c.id = x.chat_id) ∧
        (((delStorage st.storage row.chat_id row.index).interactions.map
            InteractionRow.id).Nodup) ∧
        (∀ cid', (rowsOf (delStorage st.storage row.chat_id row.index).interactions
            cid').map InteractionRow.index =
          natSeq 0 (rowsOf (delStorage st.storage row.chat_id row.index).interactions
            cid').length) := by
      refine ⟨?_, ?_, ?_, ?_⟩
      · intro x hx
        rw [delStorage_interactions] at hx
        exact h.row_lt x (List.mem_of_mem_filter hx)
      · intro x hx
        rw [delStorage_interactions] at hx
        exact h.row_chat_mem x (List.mem_of_mem_filter hx)
      · rw [delStorage_interactions]
        exact nodup_ids_filter _ h.row_nodup
      · intro cid'
        by_cases hq : cid' = row.chat_id
        · subst hq
          rw [del_rowsOf_self h row.chat_id row.index]
          rw [List.map_take, h.contig row.chat_id, take_natSeq, List.length_take]
        · rw [del_rowsOf_ne hq row.index]
          exact h.contig cid'
    obtain ⟨hlt, hchatmem, hnd, hcontig⟩ := hfields
    cases hcd : assocFind row.chat_id st.chat_cache with
    | some cd =>
      rw [delete_cached_spec hfind hcd]
      obtain ⟨hcdid, hcdchat, hcore⟩ := h.cache_ok row.chat_id cd hcd
      constructor <;> dsimp only
      · exact h.chat_lt
      · exact hlt
      · exact hchatmem
      · exact h.chat_nodup
      · exact hnd
      · exact hcontig
      · intro cid' cd' hcd'
        by_cases hq : cid' = row.chat_id
        · subst hq
          rw [assocFind_set_self] at hcd'
          rw [Option.some.injEq] at hcd'
          subst hcd'
          refine ⟨hcdid, hcdchat, ?_⟩
          dsimp only
          rw [del_rowsOf_self h row.chat_id row.index]
          rw [filter_lt_core cd.interactions _ hcore]
          have heq : (rowsOf st.storage.interactions row.chat_id).filter
              (fun x => decide (x.index < row.index)) =
              (rowsOf st.storage.interactions row.chat_id).take row.index := by
            rw [List.filter_congr (fun x _ => decide_lt_eq_not_le x.index row.index)]
            have := filterTruncGe row.index (h.contig row.chat_id)
            simpa using this
          rw [heq]
        · rw [assocFind_set_ne hq] at hcd'
          obtain ⟨h1, h2, h3⟩ := h.cache_ok cid' cd' hcd'
          refine ⟨h1, h2, ?_⟩
          rw [del_rowsOf_ne hq row.index]
          exact h3
    | none =>
      rw [delete_uncached_spec hfind hcd]
      constructor <;> dsimp only
      · exact h.chat_lt
      · exact hlt
      · exact hchatmem
      · exact h.chat_nodup
      · exact hnd
      · exact hcontig
      · intro cid' cd' hcd'
        have hq : cid' ≠ row.chat_id := by
          intro hqq
          rw [hqq, hcd] at hcd'
          cases hcd'
        obtain ⟨h1, h2, h3⟩ := h.cache_ok cid' cd' hcd'
        refine ⟨h1, h2, ?_⟩
        rw [del_rowsOf_ne hq row.index]
        exact h3

theorem inv_runOp {st : RepoState} (h : RepoInv st) (t : Nat) (op : Op) :
    RepoInv (runOp st t op) := by
  cases op with
  | create name uid => exact inv_create h name _ uid t
  | add cid m r => exact inv_add h cid m r t
  | edit iid m r => exact inv_edit h iid m r t
  | del iid => exact inv_delete h iid

theorem inv_runOps {st : RepoState} (h : RepoInv st) (t : Nat) (ops : List Op) :
    RepoInv (runOps st t ops) := by
  induction ops generalizing st t with
  | nil => exact h
  | cons op ops ih => exact ih (inv_runOp h t op) (t + 1)

theorem inv_init (users : List UserRow) : RepoInv (initState users) := by
  refine ⟨?_, ?_, ?_, ?_, ?_, ?_, ?_⟩ <;>
    intros <;> simp_all [initState, rowsOf, assocFind, natSeq]

theorem create_fail_spec (st : RepoState) (name g : String) (uid t : Nat) :
    create_chat st name g uid t true = (none, { st with nextId := st.nextId + 2 }) := rfl

theorem edit_fail_spec (st : RepoState) (iid : Nat) (m r : String) (t : Nat) :
    edit_message st iid m r t true = (none, st) := by
  cases hfind : findRow st.storage iid <;> simp [edit_message, hfind]

theorem delete_fail_spec (st : RepoState) (iid : Nat) :
    delete_message st iid true = (none, st) := by
  cases hfind : findRow st.storage iid <;> simp [delete_message, hfind]

theorem add_fail_spec (st : RepoState) (cid : Nat) (m r : String) (t : Nat) :
    (add_message st cid m r t true).1 = none ∧
    (add_message st cid m r t true).2.storage = st.storage ∧
    (assocMem cid st.chat_cache = true →
      (add_message st cid m r t true).2.chat_cache = st.chat_cache) := by
  cases hmem : assocFind cid st.chat_cache with
  | some cd =>
    have hmem' : assocMem cid st.chat_cache = true := by simp [assocMem, hmem]
    refine ⟨?_, ?_, ?_⟩ <;> simp [add_message, assocMem, hmem]
  | none =>
    have hmem' : assocMem cid st.chat_cache = false := by simp [assocMem, hmem]
    cases hload : load_chat_from_db st cid with
    | mk res st1 =>
      cases res with
      | none =>
        have hst1 : st1 = st := load_none_state hload
        subst hst1
        refine ⟨?_, ?_, ?_⟩ <;> simp [add_message, assocMem, hmem, hload]
      | some cdL =>
        have hst1 : st1 = { st with chat_cache := assocSet cid cdL st.chat_cache } :=
          load_some_state hload
        have hcd1 : assocFind cid st1.chat_cache = some cdL := by
          rw [hst1]
          exact assocFind_set_self _ _ _
        refine ⟨?_, ?_, ?_⟩ <;>
          simp [add_message, assocMem, hmem, hload, hcd1, hmem', hst1, assocFind_set_self]

theorem mem_upd_of_ne {l : List InteractionRow} {iid : Nat} {m r : String} {t : Nat}
    {x : InteractionRow} (hx : x ∈ l) (hne : x.id ≠ iid) :
    x ∈ updateRowById l iid m r t := by
  induction l with
  | nil => cases hx
  | cons y ys ih =>
    by_cases hy : y.id = iid
    · rw [updateRowById, if_pos (by simp [hy])]
      rcases List.mem_cons.mp hx with rfl | hx'
      · exact absurd hy hne
      · exact List.mem_cons_of_mem _ hx'
    · rw [updateRowById, if_neg (by simp [hy])]
      rcases List.mem_cons.mp hx with rfl | hx'
      · exact List.mem_cons_self _ _
      · exact List.mem_cons_of_mem _ (ih hx')

theorem upd_mem_updated {iid : Nat} {m r : String} {t : Nat} :
    ∀ {l : List InteractionRow} {row : InteractionRow},
      l.find? (fun x => x.id == iid) = some row →
      { row with message := some m, response := r, timestamp := t } ∈
        updateRowById l iid m r t := by
  intro l
  induction l with
  | nil => intro row h; cases h
  | cons y ys ih =>
    intro row h
    by_cases hy : y.id = iid
    · rw [List.find?_cons_of_pos _ (by simp [hy])] at h
      rw [Option.some.injEq] at h
      subst h
      rw [updateRowById, if_pos (by simp [hy])]
      exact List.mem_cons_self _ _
    · rw [List.find?_cons_of_neg _ (by simp [hy])] at h
      rw [updateRowById, if_neg (by simp [hy])]
      exact List.mem_cons_of_mem _ (ih h)

theorem load_storage (st : RepoState) (cid : Nat) :
    ((load_chat_from_db st cid).2).storage = st.storage := by
  cases hload : load_chat_from_db st cid with
  | mk res st1 =>
    cases res with
    | none => rw [load_none_state hload]
    | some cd => rw [load_some_state hload]

theorem load_nextId (st : RepoState) (cid : Nat) :
    ((load_chat_from_db st cid).2).nextId = st.nextId := by
  cases hload : load_chat_from_db st cid with
  | mk res st1 =>
    cases res with
    | none => rw [load_none_state hload]
    | some cd => rw [load_some_state hload]

theorem absent_editStorage {s : Storage} {rid iid cid i : Nat} {m r : String} {t : Nat}
    (habs : ∀ x ∈ s.interactions, x.id ≠ rid) :
    ∀ x ∈ (editStorage s iid cid i m r t).interactions, x.id ≠ rid := by
  intro x hx
  rw [editStorage_interactions] at hx
  obtain ⟨y, hy, hid, _, _⟩ := upd_mem (List.mem_of_mem_filter hx)
  rw [hid]
  exact habs y hy

theorem absent_add_cached {st : RepoState} {rid cid : Nat} {cd : ChatData}
    (ha : absentRid st rid) (hcd : assocFind cid st.chat_cache = some cd)
    (m r : String) (t : Nat) : absentRid ((add_message st cid m r t false).2) rid := by
  obtain ⟨hlt, habs⟩ := ha
  rw [add_cached_spec hcd]
  refine ⟨by dsimp only; omega, ?_⟩
  dsimp only
  intro x hx
  rcases List.mem_append.mp hx with hx' | hx'
  · exact habs x hx'
  · rcases List.mem_singleton.mp hx' with rfl
    dsimp only
    omega

theorem absent_runOp {st : RepoState} {rid : Nat} (ha : absentRid st rid) (t : Nat) :
    ∀ op, absentRid (runOp st t op) rid := by
  intro op
  cases op with
  | create name uid =>
    obtain ⟨hlt, habs⟩ := ha
    show absentRid (create_chat st name (get_response "Hello") uid t false).2 rid
    rw [create_state]
    refine ⟨by dsimp only; omega, ?_⟩
    dsimp only
    intro x hx
    rcases List.mem_append.mp hx with hx' | hx'
    · exact habs x hx'
    · rcases List.mem_singleton.mp hx' with rfl
      dsimp only
      omega
  | add cid m r =>
    show absentRid (add_message st cid m r t false).2 rid
    cases hmem : assocFind cid st.chat_cache with
    | some cd => exact absent_add_cached ha hmem m r t
    | none =>
      cases hload : load_chat_from_db st cid with
      | mk res st1 =>
        cases res with
        | none =>
          rw [add_uncached_none hmem hload]
          have : st1 = st := load_none_state hload
          rw [this]
          exact ha
        | some cdL =>
          rw [add_uncached_some hmem hload]
          have hst1 : st1 = { st with chat_cache := assocSet cid cdL st.chat_cache } :=
            load_some_state hload
          have ha1 : absentRid st1 rid := by
            rw [hst1]
            exact ha
          have hcd1 : assocFind cid st1.chat_cache = some cdL := by
            rw [hst1]
            exact assocFind_set_self _ _ _
          exact absent_add_cached ha1 hcd1 m r t
  | edit iid m r =>
    obtain ⟨hlt, habs⟩ := ha
    show absentRid (edit_message st iid m r t false).2 rid
    cases hfind : findRow st.storage iid with
    | none =>
      rw [edit_notfound hfind]
      exact ⟨hlt, habs⟩
    | some row =>
      cases hcd : assocFind row.chat_id st.chat_cache with
      | some cd =>
        rw [edit_cached_spec hfind hcd]
        exact ⟨hlt, absent_editStorage habs⟩
      | none =>
        rw [edit_uncached_spec hfind hcd]
        cases hload : load_chat_from_db
            { st with storage := editStorage st.storage iid row.chat_id row.index m r t }
            row.chat_id with
        | mk res st2 =>
          have hs2 : st2.storage =
              editStorage st.storage iid row.chat_id row.index m r t := by
            have := load_storage
              { st with storage := editStorage st.storage iid row.chat_id row.index m r t }
              row.chat_id
            rw [hload] at this
            exact this
          have hn2 : st2.nextId = st.nextId := by
            have := load_nextId
              { st with storage := editStorage st.storage iid row.chat_id row.index m r t }
              row.chat_id
            rw [hload] at this
            exact this
          cases res with
          | none =>
            refine ⟨by rw [hn2]; exact hlt, ?_⟩
            rw [hs2]
            exact absent_editStorage habs
          | some cdL =>
            refine ⟨by rw [hn2]; exact hlt, ?_⟩
            rw [hs2]
            exact absent_editStorage habs
  | del iid =>
    obtain ⟨hlt, habs⟩ := ha
    show absentRid (delete_message st iid false).2 rid
    cases hfind : findRow st.storage iid with
    | none =>
      rw [delete_notfound hfind]
      exact ⟨hlt, habs⟩
    | some row =>
      cases hcd : assocFind row.chat_id st.chat_cache with
      | some cd =>
        rw [delete_cached_spec hfind hcd]
        refine ⟨hlt, ?_⟩
        intro x hx
        rw [delStorage_interactions] at hx
        exact habs x (List.mem_of_mem_filter hx)
      | none =>
        rw [delete_uncached_spec hfind hcd]
        refine ⟨hlt, ?_⟩
        intro x hx
        rw [delStorage_interactions] at hx
        exact habs x (List.mem_of_mem_filter hx)

theorem absent_runOps {st : RepoState} {rid : Nat} (ha : absentRid st rid) (t : Nat)
    (ops : List Op) : absentRid (runOps st t ops) rid := by
  induction ops generalizing st t with
  | nil => exact ha
  | cons op ops ih => exact ih (absent_runOp ha t op) (t + 1)

theorem core_mem_id {D : List InteractionD} {R : List InteractionRow}
    (hcore : D.map coreD = R.map coreR) {d : InteractionD} (hd : d ∈ D) :
    ∃ x ∈ R, x.id = d.interaction_id ∧ x.index = d.index := by
  have hmem : coreD d ∈ R.map coreR := hcore ▸ List.mem_map_of_mem coreD hd
  obtain ⟨x, hx, hxe⟩ := List.mem_map.mp hmem
  obtain ⟨h1, h2, _, _⟩ := coreD_eq_parts hxe.symm
  exact ⟨x, hx, h1.symm, h2.symm⟩

theorem getChat_no_absent {st : RepoState} (h : RepoInv st) {rid : Nat}
    (ha : absentRid st rid) (cid : Nat) {cd : ChatData}
    (hcd : (get_chat st cid).1 = some cd) :
    ∀ d ∈ cd.interactions, d.interaction_id ≠ rid := by
  intro d hd
  cases hfindc : assocFind cid st.chat_cache with
  | some cd0 =>
    have : cd0 = cd := by
      simp only [get_chat, hfindc] at hcd
      exact Option.some.injEq _ _ ▸ hcd
    subst this
    obtain ⟨_, _, hcore⟩ := h.cache_ok cid cd0 hfindc
    obtain ⟨x, hx, hxid, _⟩ := core_mem_id hcore hd
    rw [← hxid]
    exact ha.2 x (mem_rowsOf.mp hx).1
  | none =>
    have hload : (load_chat_from_db st cid).1 = some cd := by
      simp only [get_chat, hfindc] at hcd
      exact hcd
    obtain ⟨⟨_, _, hcore⟩, _⟩ := (inv_load h cid).2 cd hload
    obtain ⟨x, hx, hxid, _⟩ := core_mem_id hcore hd
    rw [← hxid]
    exact ha.2 x (mem_rowsOf.mp hx).1

theorem greet_runOp {st : RepoState} (h : RepoInv st) (hg : greetOk st.storage) (t : Nat)
    {op : Op} (hs : opSafe st op = true) : greetOk (runOp st t op).storage := by
  cases op with
  | create name uid =>
    show greetOk (create_chat st name (get_response "Hello") uid t false).2.storage
    rw [create_state]
    intro c hc
    rcases List.mem_append.mp hc with hc' | hc'
    · obtain ⟨x, hx, hprop⟩ := hg c hc'
      exact ⟨x, List.mem_append_left _ hx, hprop⟩
    · rcases List.mem_singleton.mp hc' with rfl
      exact ⟨⟨st.nextId + 1, st.nextId, 0, none, get_response "Hello", t⟩,
        List.mem_append_right _ (List.mem_singleton_self _), rfl, rfl, rfl⟩
  | add cid m r =>
    show greetOk (add_message st cid m r t false).2.storage
    have hcached : ∀ st' : RepoState, st'.storage = st.storage →
        ∀ cd, assocFind cid st'.chat_cache = some cd →
        greetOk (add_message st' cid m r t false).2.storage := by
      intro st' hsame cd hcd
      rw [add_cached_spec hcd]
      intro c hc
      rw [hsame] at hc
      obtain ⟨x, hx, hprop⟩ := hg c hc
      rw [hsame]
      exact ⟨x, List.mem_append_left _ hx, hprop⟩
    cases hmem : assocFind cid st.chat_cache with
    | some cd => exact hcached st rfl cd hmem
    | none =>
      cases hload : load_chat_from_db st cid with
      | mk res st1 =>
        cases res with
        | none =>
          rw [add_uncached_none hmem hload]
          have : st1 = st := load_none_state hload
          rw [this]
          exact hg
        | some cdL =>
          rw [add_uncached_some hmem hload]
          have hst1 : st1 = { st with chat_cache := assocSet cid cdL st.chat_cache } :=
            load_some_state hload
          have hcd1 : assocFind cid st1.chat_cache = some cdL := by
            rw [hst1]
            exact assocFind_set_self _ _ _
          exact hcached st1 (by rw [hst1]) cdL hcd1
  | edit iid m r =>
    show greetOk (edit_message st iid m r t false).2.storage
    cases hfind : findRow st.storage iid with
    | none =>
      rw [edit_notfound hfind]
      exact hg
    | some row =>
      have hpos : 0 < row.index := by
        simp only [opSafe, hfind] at hs
        exact of_decide_eq_true hs
      have hmem := findRow_mem hfind
      have hkeep : greetOk (editStorage st.storage iid row.chat_id row.index m r t) := by
        intro c hc
        rw [editStorage_chats] at hc
        obtain ⟨x, hx, hxc, hxi, hxm⟩ := hg c hc
        have hne : x.id ≠ iid := by
          intro hxe
          have : x = row := eq_of_nodup_ids h.row_nodup hx hmem.1 (by rw [hxe, hmem.2])
          rw [this] at hxi
          omega
        refine ⟨x, ?_, hxc, hxi, hxm⟩
        rw [editStorage_interactions]
        apply List.mem_filter.mpr
        refine ⟨mem_upd_of_ne hx hne, ?_⟩
        simp [hxi, Nat.not_lt.mpr (Nat.le_of_lt hpos), Nat.not_lt_zero]
      cases hcd : assocFind row.chat_id st.chat_cache with
      | some cd =>
        rw [edit_cached_spec hfind hcd]
        exact hkeep
      | none =>
        rw [edit_uncached_spec hfind hcd]
        cases hload : load_chat_from_db
            { st with storage := editStorage st.storage iid row.chat_id row.index m r t }
            row.chat_id with
        | mk res st2 =>
          have hs2 : st2.storage =
              editStorage st.storage iid row.chat_id row.index m r t := by
            have := load_storage
              { st with storage := editStorage st.storage iid row.chat_id row.index m r t }
              row.chat_id
            rw [hload] at this
            exact this
          cases res with
          | none => exact hs2 ▸ hkeep
          | some cdL => exact hs2 ▸ hkeep
  | del iid =>
    show greetOk (delete_message st iid false).2.storage
    cases hfind : findRow st.storage iid with
    | none =>
      rw [delete_notfound hfind]
      exact hg
    | some row =>
      have hpos : 0 < row.index := by
        simp only [opSafe, hfind] at hs
        exact of_decide_eq_true hs
      have hkeep : greetOk (delStorage st.storage row.chat_id row.index) := by
        intro c hc
        rw [delStorage_chats] at hc
        obtain ⟨x, hx, hxc, hxi, hxm⟩ := hg c hc
        refine ⟨x, ?_, hxc, hxi, hxm⟩
        rw [delStorage_interactions]
        apply List.mem_filter.mpr
        refine ⟨hx, ?_⟩
        simp [hxi, Nat.not_le.mpr hpos]
      cases hcd : assocFind row.chat_id st.chat_cache with
      | some cd =>
        rw [delete_cached_spec hfind hcd]
        exact hkeep
      | none =>
        rw [delete_uncached_spec hfind hcd]
        exact hkeep

theorem greet_runOps {st : RepoState} (h : RepoInv st) (hg : greetOk st.storage) (t : Nat)
    {ops : List Op} (hs : opsSafe st t ops = true) : greetOk (runOps st t ops).storage := by
  induction ops generalizing st t with
  | nil => exact hg
  | cons op ops ih =>
    rw [opsSafe, Bool.and_eq_true] at hs
    exact ih (inv_runOp h t op) (greet_runOp h hg t hs.1) (t + 1) hs.2

theorem row_index_lt {st : RepoState} (hInv : RepoInv st) {iid : Nat}
    {row : InteractionRow} (hfind : findRow st.storage iid = some row) :
    row.index < (rowsOf st.storage.interactions row.chat_id).length := by
  have hmem : row.index ∈
      (rowsOf st.storage.interactions row.chat_id).map InteractionRow.index :=
    List.mem_map_of_mem _ (mem_rowsOf.mpr ⟨(findRow_mem hfind).1, rfl⟩)
  rw [hInv.contig row.chat_id] at hmem
  have := mem_natSeq hmem
  omega

theorem edit_rows_length {st : RepoState} (hInv : RepoInv st) {iid : Nat}
    {row : InteractionRow} (hfind : findRow st.storage iid = some row)
    (m r : String) (t : Nat) :
    (rowsOf (editStorage st.storage iid row.chat_id row.index m r t).interactions
      row.chat_id).length = row.index + 1 := by
  rw [edit_rowsOf_self hInv hfind m r t, List.length_take, upd_length]
  have := row_index_lt hInv hfind
  omega

theorem edit_contig {st : RepoState} (hInv : RepoInv st) {iid : Nat}
    {row : InteractionRow} (hfind : findRow st.storage iid = some row)
    (m r : String) (t : Nat) :
    ∀ c', (rowsOf (editStorage st.storage iid row.chat_id row.index m r t).interactions
        c').map InteractionRow.index =
      natSeq 0 (rowsOf (editStorage st.storage iid row.chat_id row.index m r t).interactions
        c').length :=
  (inv_edit_storage_fields hInv hfind m r t).2.2.2

theorem edit_run_shape {st : RepoState} (hInv : RepoInv st) {iid : Nat}
    {row : InteractionRow} (hfind : findRow st.storage iid = some row)
    (m r : String) (t : Nat) :
    ∃ out st', edit_message st iid m r t false = (some out, st') ∧
      st'.storage = editStorage st.storage iid row.chat_id row.index m r t ∧
      st'.nextId = st.nextId ∧
      out.map coreD =
        (rowsOf (editStorage st.storage iid row.chat_id row.index m r t).interactions
          row.chat_id).map coreR := by
  cases hcd : assocFind row.chat_id st.chat_cache with
  | some cd =>
    refine ⟨truncAt cd.interactions iid m r, _, edit_cached_spec hfind hcd, rfl, rfl, ?_⟩
    obtain ⟨_, _, hcore⟩ := hInv.cache_ok row.chat_id cd hcd
    rw [edit_rowsOf_self hInv hfind m r t]
    have := truncAt_core iid m r t cd.interactions
      (rowsOf st.storage.interactions row.chat_id) 0 row.index hcore
      (hInv.contig row.chat_id) (rowsOf_nodup_ids hInv row.chat_id)
      ⟨row, mem_rowsOf.mpr ⟨(findRow_mem hfind).1, rfl⟩, (findRow_mem hfind).2, rfl⟩
    simpa using this
  | none =>
    rw [edit_uncached_spec hfind hcd]
    have hlen := edit_rows_length hInv hfind m r t
    have hne : chatRows
        ({ st with storage := editStorage st.storage iid row.chat_id row.index m r t} :
          RepoState).storage row.chat_id ≠ [] := by
      show rowsOf (editStorage st.storage iid row.chat_id row.index m r t).interactions
          row.chat_id ≠ []
      intro hnil
      rw [hnil] at hlen
      simp at hlen
    have hcontig : (chatRows
        ({ st with storage := editStorage st.storage iid row.chat_id row.index m r t} :
          RepoState).storage row.chat_id).map InteractionRow.index =
        natSeq 0 (chatRows
          ({ st with storage := editStorage st.storage iid row.chat_id row.index m r t} :
            RepoState).storage row.chat_id).length :=
      edit_contig hInv hfind m r t row.chat_id
    obtain ⟨c, hc, hcid⟩ := hInv.row_chat_mem row (findRow_mem hfind).1
    have hfc : findChat
        ({ st with storage := editStorage st.storage iid row.chat_id row.index m r t} :
          RepoState).storage row.chat_id = some c := by
      show findChat st.storage row.chat_id = some c
      exact findChat_of_mem hInv.chat_nodup hc hcid
    rw [load_of_rows_ne hcontig hne hfc]
    exact ⟨_, _, rfl, rfl, rfl, map_coreD_map_rowToDict _⟩

/-- C1: a successful `editMessage` on the interaction at index `i` of a chat
replaces that interaction message and response, removes every interaction
of the chat with index greater than `i` from durable storage and from the
cache, leaves the chat with exactly `i + 1` interactions, returns that
truncated list, and no subsequent `getChat` — after any further sequence of
operations — ever returns a removed interaction. -/
theorem editMessage_truncates
    (st : RepoState) (hInv : RepoInv st) (iid : Nat) (row : InteractionRow)
    (hfind : findRow st.storage iid = some row) (m r : String) (t : Nat) :
    ∃ out st',
      edit_message st iid m r t false = (some out, st') ∧
      (∃ x ∈ st'.storage.interactions, x.id = iid ∧ x.chat_id = row.chat_id ∧
        x.index = row.index ∧ x.message = some m ∧ x.response = r) ∧
      (chatRows st'.storage row.chat_id).length = row.index + 1 ∧
      (∀ x ∈ st'.storage.interactions, x.chat_id = row.chat_id →
        x.index ≤ row.index) ∧
      (∀ cd, assocFind row.chat_id st'.chat_cache = some cd →
        cd.interactions.length = row.index + 1 ∧
        ∀ d ∈ cd.interactions, d.index ≤ row.index) ∧
      out.map coreD = (chatRows st'.storage row.chat_id).map coreR ∧
      (∀ rid, (∃ x ∈ st.storage.interactions, x.id = rid ∧ x.chat_id = row.chat_id ∧
          row.index < x.index) →
        ∀ t0 ops cid0 cd0, (get_chat (runOps st' t0 ops) cid0).1 = some cd0 →
          ∀ d ∈ cd0.interactions, d.interaction_id ≠ rid) := by
  obtain ⟨out, st', hrun, hstor, hnext, hout⟩ := edit_run_shape hInv hfind m r t
  have hInv' : RepoInv st' := by
    have := inv_edit hInv iid m r t
    rw [hrun] at this
    exact this
  have hlen := edit_rows_length hInv hfind m r t
  refine ⟨out, st', hrun, ?_, ?_, ?_, ?_, ?_, ?_⟩
  · refine ⟨{ row with message := some m, response := r, timestamp := t }, ?_,
      (findRow_mem hfind).2, rfl, rfl, rfl, rfl⟩
    rw [hstor, editStorage_interactions]
    apply List.mem_filter.mpr
    refine ⟨upd_mem_updated hfind, ?_⟩
    simp
  · rw [hstor]
    exact hlen
  · intro x hx hxc
    rw [hstor] at hx
    have hxm : x ∈ rowsOf (editStorage st.storage iid row.chat_id row.index m r t).interactions
        row.chat_id := mem_rowsOf.mpr ⟨hx, hxc⟩
    have hmemidx : x.index ∈ (rowsOf (editStorage st.storage iid row.chat_id row.index
        m r t).interactions row.chat_id).map InteractionRow.index :=
      List.mem_map_of_mem _ hxm
    rw [edit_contig hInv hfind m r t row.chat_id, hlen] at hmemidx
    have := mem_natSeq hmemidx
    omega
  · intro cd hcd
    obtain ⟨_, _, hcore⟩ := hInv'.cache_ok row.chat_id cd hcd
    rw [hstor] at hcore
    constructor
    · have := congrArg List.length hcore
      simpa [hlen] using this
    · intro d hd
      obtain ⟨x, hx, _, hxi⟩ := core_mem_id hcore hd
      have hmemidx : x.index ∈ (rowsOf (editStorage st.storage iid row.chat_id row.index
          m r t).interactions row.chat_id).map InteractionRow.index :=
        List.mem_map_of_mem _ hx
      rw [edit_contig hInv hfind m r t row.chat_id, hlen] at hmemidx
      have := mem_natSeq hmemidx
      omega
  · rw [hstor]
    exact hout
  · intro rid hrid t0 ops cid0 cd0 hget d hd
    obtain ⟨x0, hx0, hx0id, hx0c, hx0i⟩ := hrid
    have habs : absentRid st' rid := by
      constructor
      · rw [hnext]
        have := hInv.row_lt x0 hx0
        omega
      · intro x hx hxid
        rw [hstor, editStorage_interactions] at hx
        obtain ⟨hxmem, hxpred⟩ := List.mem_filter.mp hx
        obtain ⟨y, hy, hyid, hyc, hyi⟩ := upd_mem hxmem
        have hyx0 : y = x0 := eq_of_nodup_ids hInv.row_nodup hy hx0
          (by rw [← hyid, hxid, hx0id])
        rw [hyx0] at hyc hyi
        rw [hyc, hx0c] at hxpred
        rw [hyi] at hxpred
        simp [hx0i] at hxpred
    have hend := getChat_no_absent (inv_runOps hInv' t0 ops)
      (absent_runOps habs t0 ops) cid0 hget
    exact hend d hd

theorem del_contig {st : RepoState} (hInv : RepoInv st) (cid i : Nat) :
    ∀ c', (rowsOf (delStorage st.storage cid i).interactions c').map
        InteractionRow.index =
      natSeq 0 (rowsOf (delStorage st.storage cid i).interactions c').length := by
  intro c'
  by_cases hq : c' = cid
  · subst hq
    rw [del_rowsOf_self hInv c' i, List.map_take, hInv.contig c', take_natSeq,
      List.length_take]
  · rw [del_rowsOf_ne hq i]
    exact hInv.contig c'

theorem delete_rows_length {st : RepoState} (hInv : RepoInv st) {iid : Nat}
    {row : InteractionRow} (hfind : findRow st.storage iid = some row) :
    (rowsOf (delStorage st.storage row.chat_id row.index).interactions
      row.chat_id).length = row.index := by
  rw [del_rowsOf_self hInv row.chat_id row.index, List.length_take]
  have := row_index_lt hInv hfind
  omega

theorem delete_run_shape {st : RepoState} (hInv : RepoInv st) {iid : Nat}
    {row : InteractionRow} (hfind : findRow st.storage iid = some row) :
    ∃ out st', delete_message st iid false = (some out, st') ∧
      st'.storage = delStorage st.storage row.chat_id row.index ∧
      st'.nextId = st.nextId ∧
      out.map coreD =
        (rowsOf (delStorage st.storage row.chat_id row.index).interactions
          row.chat_id).map coreR := by
  cases hcd : assocFind row.chat_id st.chat_cache with
  | some cd =>
    refine ⟨_, _, delete_cached_spec hfind hcd, rfl, rfl, ?_⟩
    obtain ⟨_, _, hcore⟩ := hInv.cache_ok row.chat_id cd hcd
    rw [del_rowsOf_self hInv row.chat_id row.index]
    rw [filter_lt_core cd.interactions _ hcore]
    have heq : (rowsOf st.storage.interactions row.chat_id).filter
        (fun x => decide (x.index < row.index)) =
        (rowsOf st.storage.interactions row.chat_id).take row.index := by
      rw [List.filter_congr (fun x _ => decide_lt_eq_not_le x.index row.index)]
      have := filterTruncGe row.index (hInv.contig row.chat_id)
      simpa using this
    rw [heq]
  | none =>
    refine ⟨_, _, delete_uncached_spec hfind hcd, rfl, rfl, ?_⟩
    have hcontig := del_contig hInv row.chat_id row.index row.chat_id
    show ((sortByIndex (rowsOf (delStorage st.storage row.chat_id row.index).interactions
      row.chat_id)).map rowToDict).map coreD = _
    rw [sortByIndex_eq_self hcontig]
    exact map_coreD_map_rowToDict _

theorem core_map_index {D : List InteractionD} {R : List InteractionRow}
    (hcore : D.map coreD = R.map coreR) :
    D.map InteractionD.index = R.map InteractionRow.index := by
  have h2 := congrArg
    (List.map (fun c : Nat × Nat × Option String × String => c.2.1)) hcore
  rw [List.map_map, List.map_map] at h2
  exact h2

/-- C2: a successful `deleteMessage` on the interaction at index `i` of a chat
removes every interaction of the chat with index greater than or equal to `i`
from durable storage and from the cache, leaves the chat with exactly `i`
interactions, and returns the remaining interactions ordered by index. -/
theorem deleteMessage_truncates
    (st : RepoState) (hInv : RepoInv st) (iid : Nat) (row : InteractionRow)
    (hfind : findRow st.storage iid = some row) :
    ∃ out st',
      delete_message st iid false = (some out, st') ∧
      (chatRows st'.storage row.chat_id).length = row.index ∧
      (∀ x ∈ st'.storage.interactions, x.chat_id = row.chat_id →
        x.index < row.index) ∧
      (∀ cd, assocFind row.chat_id st'.chat_cache = some cd →
        cd.interactions.length = row.index ∧
        ∀ d ∈ cd.interactions, d.index < row.index) ∧
      out.map coreD = (chatRows st'.storage row.chat_id).map coreR ∧
      out.map InteractionD.index = List.range row.index := by
  obtain ⟨out, st', hrun, hstor, hnext, hout⟩ := delete_run_shape hInv hfind
  have hInv' : RepoInv st' := by
    have := inv_delete hInv iid
    rw [hrun] at this
    exact this
  have hlen := delete_rows_length hInv hfind
  have hidxbound : ∀ x ∈ st'.storage.interactions, x.chat_id = row.chat_id →
      x.index < row.index := by
    intro x hx hxc
    rw [hstor] at hx
    have hxm : x ∈ rowsOf (delStorage st.storage row.chat_id row.index).interactions
        row.chat_id := mem_rowsOf.mpr ⟨hx, hxc⟩
    have hmemidx : x.index ∈ (rowsOf (delStorage st.storage row.chat_id
        row.index).interactions row.chat_id).map InteractionRow.index :=
      List.mem_map_of_mem _ hxm
    rw [del_contig hInv row.chat_id row.index row.chat_id, hlen] at hmemidx
    have := mem_natSeq hmemidx
    omega
  refine ⟨out, st', hrun, ?_, hidxbound, ?_, ?_, ?_⟩
  · rw [hstor]
    exact hlen
  · intro cd hcd
    obtain ⟨_, _, hcore⟩ := hInv'.cache_ok row.chat_id cd hcd
    rw [hstor] at hcore
    constructor
    · have := congrArg List.length hcore
      simpa [hlen] using this
    · intro d hd
      obtain ⟨x, hx, _, hxi⟩ := core_mem_id hcore hd
      have hmemidx : x.index ∈ (rowsOf (delStorage st.storage row.chat_id
          row.index).interactions row.chat_id).map InteractionRow.index :=
        List.mem_map_of_mem _ hx
      rw [del_contig hInv row.chat_id row.index row.chat_id, hlen] at hmemidx
      have := mem_natSeq hmemidx
      omega
  · rw [hstor]
    exact hout
  · rw [core_map_index hout, del_contig hInv row.chat_id row.index row.chat_id, hlen,
      natSeq_zero_eq_range]

theorem add_index_of_cached {st : RepoState} (hInv : RepoInv st) {cid : Nat}
    {cd : ChatData} (hcd : assocFind cid st.chat_cache = some cd)
    (m r : String) (t : Nat) :
    (add_message st cid m r t false).1 =
      some ⟨st.nextId, (chatRows st.storage cid).length, some m, r, t⟩ ∧
    (chatRows (add_message st cid m r t false).2.storage cid).map
        InteractionRow.index =
      List.range ((chatRows st.storage cid).length + 1) := by
  obtain ⟨_, _, hcore⟩ := hInv.cache_ok cid cd hcd
  have hlen : cd.interactions.length = (rowsOf st.storage.interactions cid).length := by
    have := congrArg List.length hcore
    simpa using this
  rw [add_cached_spec hcd]
  constructor
  · dsimp only
    show some (⟨st.nextId, cd.interactions.length, some m, r, t⟩ : InteractionD) =
      some ⟨st.nextId, (rowsOf st.storage.interactions cid).length, some m, r, t⟩
    rw [hlen]
  · dsimp only
    show (rowsOf (st.storage.interactions ++
        [⟨st.nextId, cid, cd.interactions.length, some m, r, t⟩]) cid).map
        InteractionRow.index =
      List.range ((rowsOf st.storage.interactions cid).length + 1)
    rw [rowsOf_append, rowsOf_single_self rfl, List.map_append, hInv.contig cid]
    have hsnoc : natSeq 0 ((rowsOf st.storage.interactions cid).length + 1) =
        natSeq 0 (rowsOf st.storage.interactions cid).length ++
          [(rowsOf st.storage.interactions cid).length] := by
      simpa using natSeq_snoc 0 (rowsOf st.storage.interactions cid).length
    rw [← natSeq_zero_eq_range, hsnoc]
    simp [hlen]

/-- C7: each successful `addMessage` assigns the new interaction the index
equal to the chat current interaction count, so after the call the chat
indices are exactly `0..n` with no gaps. -/
theorem addMessage_index_contiguous (st : RepoState) (hInv : RepoInv st)
    (cid : Nat) (m r : String) (t : Nat) (d : InteractionD) (st' : RepoState)
    (hrun : add_message st cid m r t false = (some d, st')) :
    d.index = (chatRows st.storage cid).length ∧
    (chatRows st'.storage cid).map InteractionRow.index =
      List.range ((chatRows st.storage cid).length + 1) := by
  cases hmem : assocFind cid st.chat_cache with
  | some cd =>
    obtain ⟨h1, h2⟩ := add_index_of_cached hInv hmem m r t
    rw [hrun] at h1 h2
    simp only [Option.some.injEq] at h1
    exact ⟨by rw [h1], h2⟩
  | none =>
    cases hload : load_chat_from_db st cid with
    | mk res st1 =>
      cases res with
      | none =>
        rw [add_uncached_none hmem hload] at hrun
        simp at hrun
      | some cdL =>
        rw [add_uncached_some hmem hload] at hrun
        have hst1 : st1 = { st with chat_cache := assocSet cid cdL st.chat_cache } :=
          load_some_state hload
        have hInv1 : RepoInv st1 := by
          have := (inv_load hInv cid).1
          rw [hload] at this
          exact this
        have hcd1 : assocFind cid st1.chat_cache = some cdL := by
          rw [hst1]
          exact assocFind_set_self _ _ _
        have hsame : st1.storage = st.storage := by rw [hst1]
        obtain ⟨h1, h2⟩ := add_index_of_cached hInv1 hcd1 m r t
        rw [hrun, hsame] at h1 h2
        simp only [Option.some.injEq] at h1
        exact ⟨by rw [h1], h2⟩

theorem eq_of_nodup_chat_ids {l : List ChatRow}
    (h : (l.map ChatRow.id).Nodup) {a b : ChatRow}
    (ha : a ∈ l) (hb : b ∈ l) (hid : a.id = b.id) : a = b := by
  induction l with
  | nil => cases ha
  | cons x xs ih =>
    rw [List.map_cons, List.nodup_cons] at h
    rcases List.mem_cons.mp ha with rfl | ha' <;> rcases List.mem_cons.mp hb with rfl | hb'
    · rfl
    · exact absurd (hid ▸ List.mem_map_of_mem ChatRow.id hb') h.1
    · exact absurd (hid ▸ List.mem_map_of_mem ChatRow.id ha') h.1
    · exact ih h.2 ha' hb'

/-- C4 (amended): whenever a cache-bypassing `loadChat` finds the chat,
`getChat` returns the same owner, name, chat id and the same interaction list
up to timestamps (ids, indices, messages and responses agree); when
`loadChat` reports `NotFound` but `getChat` still answers from the cache, the
cached interaction list is empty.  (As stated the claim is falsified by
`getChat_loadChat_disagree_cex`: after an edit the cached timestamp lags the
stored one, and after a delete of index 0 `getChat` still returns the cached
empty chat while `loadChat` returns `NotFound`.) -/
theorem getChat_agrees_loadChat (st : RepoState) (hInv : RepoInv st) (cid : Nat) :
    (∀ cd', (load_chat_from_db st cid).1 = some cd' →
      ∃ cd, (get_chat st cid).1 = some cd ∧ cd.user_id = cd'.user_id ∧
        cd.chat_name = cd'.chat_name ∧ cd.chat_id = cd'.chat_id ∧
        cd.interactions.map coreD = cd'.interactions.map coreD) ∧
    (∀ cd, (get_chat st cid).1 = some cd → (load_chat_from_db st cid).1 = none →
      cd.interactions = []) := by
  cases hmem : assocFind cid st.chat_cache with
  | none =>
    constructor
    · intro cd' hl
      refine ⟨cd', ?_, rfl, rfl, rfl, rfl⟩
      simp only [get_chat, hmem]
      exact hl
    · intro cd hg hl
      simp only [get_chat, hmem] at hg
      rw [hl] at hg
      cases hg
  | some cd0 =>
    obtain ⟨hid0, hchat0, hcore0⟩ := hInv.cache_ok cid cd0 hmem
    constructor
    · intro cd' hl
      obtain ⟨⟨hid', hchat', hcore'⟩, _⟩ := (inv_load hInv cid).2 cd' hl
      refine ⟨cd0, by simp [get_chat, hmem], ?_, ?_, ?_, ?_⟩
      · obtain ⟨c0, hc0, hc0id, hu0, hn0⟩ := hchat0
        obtain ⟨c', hc', hcid2, hu', hn'⟩ := hchat'
        have hcc : c0 = c' :=
          eq_of_nodup_chat_ids hInv.chat_nodup hc0 hc' (by rw [hc0id, hcid2])
        rw [hu0, hu', hcc]
      · obtain ⟨c0, hc0, hc0id, hu0, hn0⟩ := hchat0
        obtain ⟨c', hc', hcid2, hu', hn'⟩ := hchat'
        have hcc : c0 = c' :=
          eq_of_nodup_chat_ids hInv.chat_nodup hc0 hc' (by rw [hc0id, hcid2])
        rw [hn0, hn', hcc]
      · rw [hid0, hid']
      · rw [hcore0, hcore']
    · intro cd hg hl
      have hcd : cd0 = cd := by
        simp only [get_chat, hmem] at hg
        exact Option.some.injEq _ _ ▸ hg
      have hrows : rowsOf st.storage.interactions cid = [] := by
        by_contra hne
        obtain ⟨c0, hc0, hc0id, _, _⟩ := hchat0
        have hfc : findChat st.storage cid = some c0 :=
          findChat_of_mem hInv.chat_nodup hc0 hc0id
        rw [load_of_rows_ne (hInv.contig cid) hne hfc] at hl
        cases hl
      rw [← hcd]
      have hmap : cd0.interactions.map coreD = [] := by
        rw [hcore0, hrows]
        rfl
      exact List.map_eq_nil_iff.mp hmap

/-- C10: when `deleteMessage` removes every interaction of a cached chat (the
deleted interaction had index 0), the cache entry survives with an empty
interaction list and a subsequent `getChat` answers with that empty chat
rather than `NotFound`, whereas `getChat` over the same storage with no cache
entry returns `NotFound`. -/
theorem deleteAll_cache_vs_storage (st : RepoState) (iid : Nat)
    (row : InteractionRow) (hfind : findRow st.storage iid = some row)
    (hidx : row.index = 0) (cd : ChatData)
    (hcd : assocFind row.chat_id st.chat_cache = some cd) :
    ∃ st', delete_message st iid false = (some [], st') ∧
      assocFind row.chat_id st'.chat_cache = some { cd with interactions := [] } ∧
      (get_chat st' row.chat_id).1 = some { cd with interactions := [] } ∧
      (∀ cache', assocFind row.chat_id cache' = none →
        (get_chat { st' with chat_cache := cache' } row.chat_id).1 = none) := by
  have hfilter : cd.interactions.filter (fun d => decide (d.index < row.index)) = [] := by
    rw [hidx]
    apply List.filter_eq_nil_iff.mpr
    intro d _
    simp
  have hrows : rowsOf (delStorage st.storage row.chat_id row.index).interactions
      row.chat_id = [] := by
    rw [delStorage_interactions, rowsOf_filter_comm]
    apply List.filter_eq_nil_iff.mpr
    intro x hx
    have hcx : x.chat_id = row.chat_id := (mem_rowsOf.mp hx).2
    simp [hcx, hidx]
  refine ⟨{ st with storage := delStorage st.storage row.chat_id row.index, chat_cache := (assocSet row.chat_id { cd with interactions := [] } st.chat_cache) }, ?_, assocFind_set_self _ _ _, ?_, ?_⟩
  · rw [delete_cached_spec hfind hcd, hfilter]
  · simp [get_chat, assocFind_set_self]
  · intro cache' hnone
    have hl := load_of_rows_nil
      (show chatRows ({ st with
          storage := delStorage st.storage row.chat_id row.index,
          chat_cache := cache' } : RepoState).storage row.chat_id = [] from hrows)
    simp only [get_chat, hnone, hl]

theorem add_storage_shape (st : RepoState) (cid : Nat) (m r : String) (t : Nat) :
    (add_message st cid m r t false).2.storage = st.storage ∨
    ∃ j n, (add_message st cid m r t false).2.storage =
      { st.storage with
        interactions := st.storage.interactions ++ [⟨j, cid, n, some m, r, t⟩] } := by
  cases hmem : assocFind cid st.chat_cache with
  | some cd =>
    right
    exact ⟨st.nextId, cd.interactions.length, by rw [add_cached_spec hmem]⟩
  | none =>
    cases hload : load_chat_from_db st cid with
    | mk res st1 =>
      cases res with
      | none =>
        left
        rw [add_uncached_none hmem hload]
        rw [load_none_state hload]
      | some cdL =>
        right
        have hst1 : st1 = { st with chat_cache := assocSet cid cdL st.chat_cache } :=
          load_some_state hload
        have hcd1 : assocFind cid st1.chat_cache = some cdL := by
          rw [hst1]
          exact assocFind_set_self _ _ _
        refine ⟨st1.nextId, cdL.interactions.length, ?_⟩
        rw [add_uncached_some hmem hload, add_cached_spec hcd1, hst1]

theorem edit_storage_result {st : RepoState} {iid : Nat} {row : InteractionRow}
    (hfind : findRow st.storage iid = some row) (m r : String) (t : Nat) :
    (edit_message st iid m r t false).2.storage =
      editStorage st.storage iid row.chat_id row.index m r t := by
  cases hcd : assocFind row.chat_id st.chat_cache with
  | some cd => rw [edit_cached_spec hfind hcd]
  | none =>
    rw [edit_uncached_spec hfind hcd]
    cases hload : load_chat_from_db
        { st with storage := editStorage st.storage iid row.chat_id row.index m r t }
        row.chat_id with
    | mk res st2 =>
      have hs2 := load_storage
        { st with storage := editStorage st.storage iid row.chat_id row.index m r t }
        row.chat_id
      rw [hload] at hs2
      cases res with
      | none => exact hs2
      | some cdL => exact hs2

theorem delete_storage_result {st : RepoState} {iid : Nat} {row : InteractionRow}
    (hfind : findRow st.storage iid = some row) :
    (delete_message st iid false).2.storage =
      delStorage st.storage row.chat_id row.index := by
  cases hcd : assocFind row.chat_id st.chat_cache with
  | some cd => rw [delete_cached_spec hfind hcd]
  | none => rw [delete_uncached_spec hfind hcd]

/-- C9 (frame): `add_message`, `edit_message` and `delete_message` leave the
`users` and `chats` relations untouched and modify only interaction rows of
the chat resolved from the given chat id or interaction id, for committed and
failed writes alike; when the interaction id resolves to nothing, storage is
untouched. -/
theorem mutations_frame (st : RepoState) (hInv : RepoInv st) (cid iid : Nat)
    (m r : String) (t : Nat) (f : Bool) :
    ((add_message st cid m r t f).2.storage.users = st.storage.users ∧
     (add_message st cid m r t f).2.storage.chats = st.storage.chats ∧
     (∀ c', c' ≠ cid →
       chatRows (add_message st cid m r t f).2.storage c' =
         chatRows st.storage c')) ∧
    ((edit_message st iid m r t f).2.storage.users = st.storage.users ∧
     (edit_message st iid m r t f).2.storage.chats = st.storage.chats ∧
     (∀ row, findRow st.storage iid = some row → ∀ c', c' ≠ row.chat_id →
       chatRows (edit_message st iid m r t f).2.storage c' =
         chatRows st.storage c') ∧
     (findRow st.storage iid = none →
       (edit_message st iid m r t f).2.storage = st.storage)) ∧
    ((delete_message st iid f).2.storage.users = st.storage.users ∧
     (delete_message st iid f).2.storage.chats = st.storage.chats ∧
     (∀ row, findRow st.storage iid = some row → ∀ c', c' ≠ row.chat_id →
       chatRows (delete_message st iid f).2.storage c' =
         chatRows st.storage c') ∧
     (findRow st.storage iid = none →
       (delete_message st iid f).2.storage = st.storage)) := by
  cases f with
  | true =>
    obtain ⟨_, hadd, _⟩ := add_fail_spec st cid m r t
    rw [edit_fail_spec, delete_fail_spec]
    refine ⟨⟨by rw [hadd], by rw [hadd], ?_⟩,
      ⟨rfl, rfl, fun _ _ _ _ => rfl, fun _ => rfl⟩,
      ⟨rfl, rfl, fun _ _ _ _ => rfl, fun _ => rfl⟩⟩
    intro c' _
    rw [hadd]
  | false =>
    refine ⟨?_, ?_, ?_⟩
    · rcases add_storage_shape st cid m r t with hsh | ⟨j, n, hsh⟩
      · exact ⟨by rw [hsh], by rw [hsh], fun c' _ => by rw [hsh]⟩
      · refine ⟨by rw [hsh], by rw [hsh], ?_⟩
        intro c' hc'
        rw [hsh]
        show rowsOf (st.storage.interactions ++ [⟨j, cid, n, some m, r, t⟩]) c' =
          rowsOf st.storage.interactions c'
        rw [rowsOf_append, rowsOf_single_ne (by simpa using Ne.symm hc')]
        simp
    · cases hfind : findRow st.storage iid with
      | none =>
        rw [edit_notfound hfind]
        refine ⟨rfl, rfl, ?_, fun _ => rfl⟩
        intro row hrow
        cases hrow
      | some row =>
        have hres := edit_storage_result hfind m r t
        refine ⟨by rw [hres, editStorage_users], by rw [hres, editStorage_chats], ?_, ?_⟩
        · intro row' hrow' c' hc'
          rw [Option.some.injEq] at hrow'
          subst hrow'
          rw [hres]
          exact edit_rowsOf_ne hInv hfind hc' m r t
        · intro hnone
          cases hnone
    · cases hfind : findRow st.storage iid with
      | none =>
        rw [delete_notfound hfind]
        refine ⟨rfl, rfl, ?_, fun _ => rfl⟩
        intro row hrow
        cases hrow
      | some row =>
        have hres := delete_storage_result hfind
        refine ⟨by rw [hres, delStorage_users], by rw [hres, delStorage_chats], ?_, ?_⟩
        · intro row' hrow' c' hc'
          rw [Option.some.injEq] at hrow'
          subst hrow'
          rw [hres]
          exact del_rowsOf_ne hc' row.index
        · intro hnone
          cases hnone

/-- C6 (amended): a durable-storage failure during any write rolls the
transaction back — storage is unchanged, the operation cache mutation is
not applied (for a populated entry the cache is untouched) — and the caller
receives the same `None` outcome that a lookup miss produces, so the failure
is not distinguishable from `NotFound`.  (As stated the claim is falsified by
`persistence_failure_conflated_cex`: the route surfaces the failure as the
same 404 `NotFound` response, not as a distinct internal failure.) -/
theorem write_failure_rolls_back (st : RepoState) (name m r : String)
    (uid cid iid t : Nat) :
    (create_chat st name r uid t true).1 = none ∧
    (create_chat st name r uid t true).2.storage = st.storage ∧
    (create_chat st name r uid t true).2.chat_cache = st.chat_cache ∧
    (add_message st cid m r t true).1 = none ∧
    (add_message st cid m r t true).2.storage = st.storage ∧
    (assocMem cid st.chat_cache = true →
      (add_message st cid m r t true).2.chat_cache = st.chat_cache) ∧
    edit_message st iid m r t true = (none, st) ∧
    delete_message st iid true = (none, st) := by
  obtain ⟨h1, h2, h3⟩ := add_fail_spec st cid m r t
  exact ⟨rfl, rfl, rfl, h1, h2, h3, edit_fail_spec st iid m r t, delete_fail_spec st iid⟩

/-- C8: every successful `createChat` produces exactly one interaction, at
index 0, with `message = None` and response equal to the greeting
"Hello! How can I assist you today?" (which is `get_response("Hello")`),
persists the chat row and the greeting row durably, and populates the cache
entry for the new chat with that single greeting interaction. -/
theorem createChat_greeting_spec (st : RepoState) (name : String) (uid t : Nat) :
    (service_create_chat st name uid t false).1 =
      some (st.nextId,
        ⟨st.nextId + 1, 0, none, "Hello! How can I assist you today?", t⟩, name) ∧
    (service_create_chat st name uid t false).2.storage.chats =
      st.storage.chats ++ [⟨st.nextId, uid, name⟩] ∧
    (service_create_chat st name uid t false).2.storage.interactions =
      st.storage.interactions ++
        [⟨st.nextId + 1, st.nextId, 0, none,
          "Hello! How can I assist you today?", t⟩] ∧
    assocFind st.nextId (service_create_chat st name uid t false).2.chat_cache =
      some ⟨uid, name, st.nextId,
        [⟨st.nextId + 1, 0, none, "Hello! How can I assist you today?", t⟩]⟩ := by
  have hg : get_response "Hello" = "Hello! How can I assist you today?" := rfl
  refine ⟨?_, ?_, ?_, ?_⟩
  · simp only [service_create_chat, hg, create_spec]
  · simp only [service_create_chat, hg, create_state]
  · simp only [service_create_chat, hg, create_state]
  · simp only [service_create_chat, hg, create_state]
    exact assocFind_set_self _ _ _

/-- C5 (amended): in every reachable state the set of interaction indices of
each chat is exactly `{0, ..., n-1}` for some `n ≥ 0` — no gaps, no
duplicates — and as long as no `editMessage` or `deleteMessage` ever targets
an index-0 (greeting) interaction, every created chat keeps an index-0
interaction with `message = None`.  (As stated the claim is falsified by
`indices_nonempty_cex`: deleting the greeting leaves the chat with zero
interactions, so `n ≥ 1` fails; an edit addressed to the greeting likewise
overwrites its null message.) -/
theorem indices_contiguous_and_greeting (users : List UserRow) (ops : List Op) :
    (∀ cid, (chatRows (runOps (initState users) 0 ops).storage cid).map
        InteractionRow.index =
      List.range (chatRows (runOps (initState users) 0 ops).storage cid).length) ∧
    (opsSafe (initState users) 0 ops = true →
      ∀ c ∈ (runOps (initState users) 0 ops).storage.chats,
        ∃ x ∈ (runOps (initState users) 0 ops).storage.interactions,
          x.chat_id = c.id ∧ x.index = 0 ∧ x.message = none) := by
  have hInv := inv_runOps (inv_init users) 0 ops
  constructor
  · intro cid
    have := hInv.contig cid
    rw [natSeq_zero_eq_range] at this
    exact this
  · intro hs
    have hg : greetOk (initState users).storage := by
      intro c hc
      simp [initState] at hc
    exact greet_runOps (inv_init users) hg 0 hs

/-- C3 (code bug): the route handlers check ownership of the PATH chat id
only, while the repository edits the chat resolved from the interaction id
alone.  User 100, who owns chat 0, sends `PATCH /chats/0/messages/4` where
interaction 4 belongs to chat 2 owned by user 200: the request is not
answered with 403 AccessDenied — it succeeds and mutates the chat of user 200,
contradicting the claim that such a request results in AccessDenied and
leaves the chat unchanged. -/
theorem editMessage_cross_chat_ownership_bypass :
    (∃ c ∈ exCrossState.storage.chats, c.id = 2 ∧ c.user_id = 200) ∧
    (∃ c ∈ exCrossState.storage.chats, c.id = 0 ∧ c.user_id = 100) ∧
    (∃ x ∈ exCrossState.storage.interactions, x.id = 4 ∧ x.chat_id = 2) ∧
    (route_edit_message exCrossState 0 4 "intruder" 100 10 false).1 ≠
      RouteResult.error 403 ∧
    chatRows
        (route_edit_message exCrossState 0 4 "intruder" 100 10 false).2.storage 2 ≠
      chatRows exCrossState.storage 2 := by
  decide

/-- C4 counterexample: after `create`, `add`, `edit` on chat 0, `getChat`
(answered from the cache, whose edited entry keeps the pre-edit timestamp)
differs from a fresh cache-bypassing `loadChat` (which returns the freshly
stored timestamp), so the two are not identical as the claim requires. -/
theorem getChat_loadChat_disagree_cex :
    (get_chat exEditedState 0).1 ≠ (load_chat_from_db exEditedState 0).1 := by
  decide

/-- C5 counterexample: deleting the greeting interaction (index 0) of a
freshly created chat leaves the chat on record with zero interactions, so the
set of its interaction indices is empty and cannot be `{0, ..., n-1}` for any
`n ≥ 1`. -/
theorem indices_nonempty_cex :
    chatRows exEmptiedState.storage 0 = [] ∧
    (0 ∈ exEmptiedState.storage.chats.map ChatRow.id) ∧
    ¬ ∃ n, 1 ≤ n ∧
      (chatRows exEmptiedState.storage 0).map InteractionRow.index =
        List.range n := by
  refine ⟨by decide, by decide, ?_⟩
  rintro ⟨n, hn, heq⟩
  have h0 : chatRows exEmptiedState.storage 0 = [] := by decide
  rw [h0] at heq
  have hnil : List.range n = [] := heq.symm
  rw [List.range_eq_nil] at hnil
  omega

/-- C6 counterexample: a durable-storage failure during `addMessage` produces
the identical `None` repository outcome as a missing chat id, and the route
surfaces it as the same 404 `NotFound` response — not as an internal-failure
outcome distinguishable from `NotFound`. -/
theorem persistence_failure_conflated_cex :
    (route_add_message exSimpleState 0 "hi" 100 5 true).1 =
      RouteResult.error 404 ∧
    (add_message exSimpleState 0 "hi" "resp" 5 true).1 = none ∧
    (add_message exSimpleState 999 "hi" "resp" 5 false).1 = none := by
  decide

/-- Witness for `editMessage_truncates` at a concrete two-interaction run. -/
theorem editMessage_truncates_witness :
    (chatRows ((edit_message exTwoAddState 2 "new" "resp" 7 false).2).storage 0).length
      = 2 := by
  obtain ⟨out, st', hrun, hA, hlen, hC, hD, hE, hF⟩ :=
    editMessage_truncates exTwoAddState
      (inv_runOps (inv_init exUsers) 0
        [Op.create "trip" 100, Op.add 0 "hi" "r1", Op.add 0 "yo" "r2"]) 2
      ⟨2, 0, 1, some "hi", "r1", 1⟩ (by decide) "new" "resp" 7
  rw [hrun]
  exact hlen

/-- Witness for `deleteMessage_truncates` at the same concrete run. -/
theorem deleteMessage_truncates_witness :
    (chatRows ((delete_message exTwoAddState 2 false).2).storage 0).length = 1 := by
  obtain ⟨out, st', hrun, hlen, hB, hC, hD, hE⟩ :=
    deleteMessage_truncates exTwoAddState
      (inv_runOps (inv_init exUsers) 0
        [Op.create "trip" 100, Op.add 0 "hi" "r1", Op.add 0 "yo" "r2"]) 2
      ⟨2, 0, 1, some "hi", "r1", 1⟩ (by decide)
  rw [hrun]
  exact hlen

/-- Witness for `addMessage_index_contiguous` on a fresh one-chat state. -/
theorem addMessage_index_contiguous_witness :
    (chatRows ((add_message exSimpleState 0 "m" "re" 3 false).2).storage 0).map
        InteractionRow.index = List.range 2 := by
  obtain ⟨h1, h2⟩ := addMessage_index_contiguous exSimpleState
    (inv_runOps (inv_init exUsers) 0 [Op.create "trip" 100]) 0 "m" "re" 3
    ⟨2, 1, some "m", "re", 3⟩ (add_message exSimpleState 0 "m" "re" 3 false).2 rfl
  exact h2

/-- Witness for `getChat_agrees_loadChat` on a fresh one-chat state. -/
theorem getChat_agrees_loadChat_witness :
    ∃ cd, (get_chat exSimpleState 0).1 = some cd ∧
      cd.user_id = exLoadedCd.user_id ∧ cd.chat_name = exLoadedCd.chat_name ∧
      cd.chat_id = exLoadedCd.chat_id ∧
      cd.interactions.map coreD = exLoadedCd.interactions.map coreD :=
  (getChat_agrees_loadChat exSimpleState
    (inv_runOps (inv_init exUsers) 0 [Op.create "trip" 100]) 0).1 exLoadedCd (by rfl)

/-- Witness for `indices_contiguous_and_greeting` on a safe run. -/
theorem indices_contiguous_and_greeting_witness :
    opsSafe (initState exUsers) 0
      [Op.create "trip" 100, Op.add 0 "hi" "r1", Op.edit 2 "e" "er"] = true ∧
    ∃ x ∈ (runOps (initState exUsers) 0
        [Op.create "trip" 100, Op.add 0 "hi" "r1",
          Op.edit 2 "e" "er"]).storage.interactions,
      x.chat_id = 0 ∧ x.index = 0 ∧ x.message = none := by
  have h := (indices_contiguous_and_greeting exUsers
    [Op.create "trip" 100, Op.add 0 "hi" "r1", Op.edit 2 "e" "er"]).2
  exact ⟨by decide, h (by decide) ⟨0, 100, "trip"⟩ (by decide)⟩

/-- Witness for `write_failure_rolls_back` with a populated cache entry. -/
theorem write_failure_rolls_back_witness :
    assocMem 0 exSimpleState.chat_cache = true ∧
    (add_message exSimpleState 0 "m" "re" 3 true).2.chat_cache =
      exSimpleState.chat_cache := by
  obtain ⟨_, _, _, _, _, h6, _, _⟩ :=
    write_failure_rolls_back exSimpleState "n" "m" "re" 100 0 1 3
  exact ⟨by decide, h6 (by decide)⟩

/-- Witness for `mutations_frame`: an add to chat 0 leaves users and the rows
of the unrelated chat id 99 untouched. -/
theorem mutations_frame_witness :
    (add_message exSimpleState 0 "m" "re" 3 false).2.storage.users =
      exSimpleState.storage.users ∧
    chatRows (add_message exSimpleState 0 "m" "re" 3 false).2.storage 99 =
      chatRows exSimpleState.storage 99 := by
  obtain ⟨⟨hu, hc, hcc⟩, _, _⟩ := mutations_frame exSimpleState
    (inv_runOps (inv_init exUsers) 0 [Op.create "trip" 100]) 0 1 "m" "re" 3 false
  exact ⟨hu, hcc 99 (by decide)⟩

/-- Witness for `deleteAll_cache_vs_storage`: deleting the greeting of the
cached chat 0 leaves a cached empty chat that `getChat` still returns. -/
theorem deleteAll_cache_vs_storage_witness :
    (get_chat ((delete_message exSimpleState 1 false).2) 0).1 =
      some (⟨100, "trip", 0, []⟩ : ChatData) := by
  obtain ⟨st', hrun, hfindc, hget, hbypass⟩ :=
    deleteAll_cache_vs_storage exSimpleState 1
      ⟨1, 0, 0, none, "Hello! How can I assist you today?", 0⟩
      (by decide) rfl exLoadedCd (by decide)
  rw [hrun]
  exact hget
